import Mathlib

/-!
# Verification of the budget aggregation and rollover engine

This file gives a shallow embedding of the core computation module of a
personal finance tracker: signed amount resolution, per-category
aggregation, the monthly budget rollover engine, the flat category report
(sorting and totals), and the grouped report (bucketing by category group).

Conventions of the embedding:
* JS numbers are modelled as `Rat` (all the amounts involved are exact
  decimal quantities; none of the claims depends on binary floating-point
  rounding).
* SQL tables are modelled as lists of typed rows; SQL `ORDER BY` clauses on
  plain row queries are omitted where the consuming computation is a sum or
  a lookup and therefore order-independent (noted at each definition).
* JS objects used as keyed dictionaries are modelled either as association
  lists (preserving insertion order where entries are iterated) or as
  functions into `Option` (where only keyed lookup is performed).  A later
  assignment to the same key overwrites, as in JS.
* SQL string comparison on the ASCII month keys is byte-wise lexicographic;
  it is modelled by `strLt` below on the code points of the characters.
-/

/-- A category's rule, `rule ∈ {income, spending}` (CHECK constraint in the
schema). -/
inductive Rule where
  | income
  | spending
deriving DecidableEq, Repr

/-- Row of `categories` joined with its group (`getAllCategories`). -/
structure Category where
  id : Nat
  name : String
  rule : Rule
  budgetAmount : Option Rat
  groupId : Option Nat
  groupName : Option String
  groupColor : Option String
deriving DecidableEq, Repr

/-- Row of `category_groups`. -/
structure CategoryGroup where
  id : Nat
  name : String
  sortOrder : Int
  color : Option String
deriving DecidableEq, Repr

/-- Row of `transactions` as read by the queries (the legacy
`fromParty`/`toParty` columns are written as `""` and never read back). -/
structure Transaction where
  id : Nat
  date : String
  description : String
  account : String
  isIncome : Nat
  amount : Rat
  categoryId : Nat
  notes : Option String
deriving DecidableEq, Repr

/-- `TransactionInput`: a transaction as inserted/imported (no id). -/
structure TransactionInput where
  date : String
  description : String
  account : String
  isIncome : Nat
  amount : Rat
  categoryId : Nat
  notes : Option String
deriving DecidableEq, Repr

/-- Row of `monthly_budgets` as returned by `getMonthlyBudgets` (the month
column is fixed by the query). -/
structure MonthlyBudget where
  categoryId : Nat
  budgetAmount : Rat
deriving DecidableEq, Repr

/-- Full row of the `monthly_budgets` table, composite key
`(categoryId, month)`. -/
structure MonthlyBudgetRow where
  categoryId : Nat
  month : String
  budgetAmount : Rat
deriving DecidableEq, Repr

/-- `getSignedAmount` from `utils/signedAmount.ts`:
`isIncome ? amount : -amount`. -/
def getSignedAmount (amount : Rat) (isIncome : Bool) : Rat :=
  if isIncome then amount else -amount

/-! ## Byte-wise lexicographic string comparison (SQL `<` on TEXT) -/

/-- Lexicographic strict order on character lists, comparing code points
(byte-wise comparison on ASCII strings, as SQLite's default collation). -/
def lexLt : List Char → List Char → Bool
  | _, [] => false
  | [], _ :: _ => true
  | a :: as, b :: bs =>
    if a.toNat < b.toNat then true
    else if b.toNat < a.toNat then false
    else lexLt as bs

/-- SQL `<` on TEXT month keys. -/
def strLt (a b : String) : Bool :=
  lexLt a.data b.data

/-! ## Monthly-budget queries (`db/queries.ts`) -/

/-- The `monthly_budgets` table. -/
abbrev BudgetTable := List MonthlyBudgetRow

/-- Months that occur in the table. -/
def monthsOf (db : BudgetTable) : List String :=
  db.map (fun r => r.month)

/-- `hasMonthlyBudgets`: `SELECT COUNT(*) ... WHERE month = ?` compared
against 0. -/
def hasMonthlyBudgets (db : BudgetTable) (month : String) : Bool :=
  db.any (fun r => r.month == month)

/-- One step of the maximum-month scan underlying
`getMostRecentMonthWithBudgets`. -/
def gmrmStep (beforeMonth : String) (acc : Option String)
    (r : MonthlyBudgetRow) : Option String :=
  if strLt r.month beforeMonth then
    match acc with
    | none => some r.month
    | some m => if strLt m r.month then some r.month else acc
  else acc

/-- `getMostRecentMonthWithBudgets`:
`SELECT DISTINCT month FROM monthly_budgets WHERE month < ? ORDER BY month
DESC LIMIT 1` — the maximal month strictly below `beforeMonth`, or `none`. -/
def getMostRecentMonthWithBudgets (db : BudgetTable) (beforeMonth : String) :
    Option String :=
  db.foldl (gmrmStep beforeMonth) none

/-- `INSERT OR IGNORE` of a single row: inserted only when no row with the
same `(categoryId, month)` key exists. -/
def insertIfAbsent (db : BudgetTable) (row : MonthlyBudgetRow) : BudgetTable :=
  if db.any (fun r => r.categoryId == row.categoryId && r.month == row.month)
  then db
  else db ++ [row]

/-- `copyBudgetsFromMonth`: `INSERT OR IGNORE INTO monthly_budgets ...
SELECT categoryId, ?, budgetAmount FROM monthly_budgets WHERE month = ?`.
The `SELECT` is evaluated on the pre-statement table. -/
def copyBudgetsFromMonth (db : BudgetTable) (sourceMonth targetMonth : String) :
    BudgetTable :=
  (db.filter (fun r => r.month == sourceMonth)).foldl
    (fun acc r =>
      insertIfAbsent acc
        { categoryId := r.categoryId, month := targetMonth
          budgetAmount := r.budgetAmount })
    db

/-- The rollover sequence executed by `loadOverview` (and `loadData`): check
the target month, find the most recent prior month, copy forward. -/
def rollover (db : BudgetTable) (targetMonth : String) : BudgetTable :=
  if hasMonthlyBudgets db targetMonth then db
  else
    match getMostRecentMonthWithBudgets db targetMonth with
    | none => db
    | some src => copyBudgetsFromMonth db src targetMonth


/-! ## JS number/string primitives

The screens format and parse month keys with JS string templates,
`String(n)`, `padStart`, `split("-")` and `Number(...)`.  These are embedded
below on character lists. -/

/-- The decimal digit character for `n < 10` (`'0'` is code point 48). -/
def digitChar (n : Nat) : Char :=
  Char.ofNat (48 + n)

/-- Decimal digits of a natural number, structurally recursive on a fuel
argument (any fuel above the number itself yields the digits). -/
def natReprGo : Nat → Nat → List Char → List Char
  | 0, _, acc => acc
  | fuel + 1, n, acc =>
    if n < 10 then digitChar n :: acc
    else natReprGo fuel (n / 10) (digitChar (n % 10) :: acc)

/-- Decimal representation of a natural number (JS number-to-string for
non-negative integers). -/
def natRepr (n : Nat) : List Char :=
  natReprGo (n + 1) n []

/-- Decimal representation of an integer (JS number-to-string). -/
def intRepr (i : Int) : List Char :=
  if i < 0 then '-' :: natRepr i.natAbs else natRepr i.toNat

/-- `String(m).padStart(2, "0")`. -/
def pad2 (n : Nat) : List Char :=
  let s := natRepr n
  if s.length < 2 then '0' :: s else s

/-- The numeric value of a decimal digit character, or `none`. -/
def digitVal (c : Char) : Option Nat :=
  if 48 ≤ c.toNat ∧ c.toNat ≤ 57 then some (c.toNat - 48) else none

/-- JS `Number(s)` restricted to the strings that occur here: `""` is `0`,
a non-empty all-digit string is its decimal value, anything else is NaN
(`none`). -/
def parseDigits (cs : List Char) : Option Nat :=
  cs.foldl
    (fun acc c =>
      match acc, digitVal c with
      | some n, some d => some (n * 10 + d)
      | _, _ => none)
    (some 0)

/-- JS `String.prototype.split` with a single-character separator
(accumulator-based; `splitOnChar '-' "2024-01" = ["2024", "01"]`). -/
def splitOnCharAux (sep : Char) : List Char → List Char → List (List Char)
  | [], cur => [cur.reverse]
  | c :: cs, cur =>
    if c == sep then cur.reverse :: splitOnCharAux sep cs []
    else splitOnCharAux sep cs (c :: cur)

/-- JS `s.split(sep)` for a one-character separator. -/
def splitOnChar (sep : Char) (cs : List Char) : List (List Char) :=
  splitOnCharAux sep cs []

/-! ## Category/budget lookup maps and per-category aggregation -/

/-- The `catMap` object built by the screens (`catMap[c.id] = c`; a later
category with the same id overwrites, as in JS). -/
def catMapOf (cats : List Category) : Nat → Option Category :=
  cats.foldl (fun m c => fun k => if k = c.id then some c else m k)
    (fun _ => none)

/-- The `budgetMap` object (`budgetMap[b.categoryId] = b.budgetAmount`). -/
def budgetMapOf (budgets : List MonthlyBudget) : Nat → Option Rat :=
  budgets.foldl
    (fun m b => fun k => if k = b.categoryId then some b.budgetAmount else m k)
    (fun _ => none)

/-- One keyed accumulation step on the `spentByCategory` object:
`m[k] = (m[k] ?? 0) + v`.  Entries are kept in first-insertion order; the
consumers only look entries up by key or sum over all entries, so the JS
ascending-integer-key iteration order is immaterial. -/
def upsertEntry : List (Nat × Rat) → Nat → Rat → List (Nat × Rat)
  | [], k, v => [(k, v)]
  | e :: rest, k, v =>
    if e.1 = k then (e.1, e.2 + v) :: rest else e :: upsertEntry rest k v

/-- Keyed lookup in the entry list. -/
def lookupEntry : List (Nat × Rat) → Nat → Option Rat
  | [], _ => none
  | e :: rest, k => if e.1 = k then some e.2 else lookupEntry rest k

/-- The `spentByCategory` / `actuals` object: per-category net signed sums,
skipping transactions whose `categoryId` resolves to no category. -/
def buildSpentMap (cats : List Category) (txs : List Transaction) :
    List (Nat × Rat) :=
  txs.foldl
    (fun m tx =>
      match catMapOf cats tx.categoryId with
      | none => m
      | some _ =>
        upsertEntry m tx.categoryId
          (getSignedAmount tx.amount (tx.isIncome == 1)))
    []

/-- `rawNet` of a category: its entry in `spentByCategory`, or 0
(`spentByCategory[c.id] ?? 0`). -/
def rawNetOf (cats : List Category) (txs : List Transaction) (k : Nat) : Rat :=
  (lookupEntry (buildSpentMap cats txs) k).getD 0

/-- The income/spending totals loop of `loadOverview`: for each
`spentByCategory` entry, income categories add `rawNet` to the income
total, spending categories add `-rawNet` to the spending total. -/
def flatTotals (cats : List Category) (txs : List Transaction) : Rat × Rat :=
  (buildSpentMap cats txs).foldl
    (fun acc e =>
      match catMapOf cats e.1 with
      | none => acc
      | some c =>
        match c.rule with
        | Rule.income => (acc.1 + e.2, acc.2)
        | Rule.spending => (acc.1, acc.2 + -e.2))
    (0, 0)

/-- Global income total of the overview screen. -/
def totalIncomeOf (cats : List Category) (txs : List Transaction) : Rat :=
  (flatTotals cats txs).1

/-- Global spending total of the overview screen. -/
def totalSpendingOf (cats : List Category) (txs : List Transaction) : Rat :=
  (flatTotals cats txs).2

/-- The displayed per-category amount of `loadOverview`:
`spent = rule === "spending" ? -rawNet : rawNet`. -/
def spentFor (cats : List Category) (txs : List Transaction)
    (c : Category) : Rat :=
  if c.rule = Rule.spending then -(rawNetOf cats txs c.id)
  else rawNetOf cats txs c.id

/-- Net signed sum of the transactions of one category, written from the
spec's words ("the sum of signed contributions of its transactions"). -/
def signedSum (txs : List Transaction) (k : Nat) : Rat :=
  ((txs.filter (fun tx => tx.categoryId = k)).map
    (fun tx => getSignedAmount tx.amount (tx.isIncome == 1))).sum

/-! ## Flat category report (`loadOverview`) -/

/-- A row of the flat report (`CategoryBudgetData` in `app/index.tsx`). -/
structure CategoryBudgetData where
  id : Nat
  name : String
  rule : Rule
  spent : Rat
  budgetAmount : Option Rat
  pctUsed : Rat
deriving DecidableEq, Repr

/-- `catBudget !== null && catBudget > 0`. -/
def hasBudgetOpt : Option Rat → Bool
  | none => false
  | some b => decide (0 < b)

/-- Build one flat-report row:
`pctUsed = hasBudget ? (spent / catBudget) * 100 : 0`. -/
def mkCategoryBudgetData (c : Category) (rawNet : Rat)
    (catBudget : Option Rat) : CategoryBudgetData :=
  let spent : Rat := if c.rule = Rule.spending then -rawNet else rawNet
  { id := c.id, name := c.name, rule := c.rule, spent := spent
    budgetAmount := catBudget
    pctUsed :=
      if hasBudgetOpt catBudget then spent / catBudget.getD 0 * 100 else 0 }

/-- `spent === 0 && (catBudget === null || catBudget === 0)`: the row is
dropped from the flat report. -/
def excludedRow (spent : Rat) (catBudget : Option Rat) : Bool :=
  decide (spent = 0) && (catBudget == none || catBudget == some 0)

/-- The unsorted spending rows of the flat report (the per-category loop of
`loadOverview`, keeping `rule === "spending"` rows). -/
def spendingCatsOf (cats : List Category) (txs : List Transaction)
    (budgets : List MonthlyBudget) : List CategoryBudgetData :=
  cats.filterMap (fun c =>
    let rawNet := rawNetOf cats txs c.id
    let catBudget := budgetMapOf budgets c.id
    let spent : Rat := if c.rule = Rule.spending then -rawNet else rawNet
    if excludedRow spent catBudget then none
    else if c.rule = Rule.income then none
    else some (mkCategoryBudgetData c rawNet catBudget))

/-- The sort comparator of `loadOverview` read as "compares
less-or-equal": `rowLe a b` holds exactly when `comparator(a, b) <= 0`,
i.e. when the comparator does not require `b` to precede `a`. -/
def rowLe (a b : CategoryBudgetData) : Bool :=
  match hasBudgetOpt a.budgetAmount, hasBudgetOpt b.budgetAmount with
  | true, false => true
  | false, true => false
  | true, true =>
    let aOver := decide (100 < a.pctUsed)
    let bOver := decide (100 < b.pctUsed)
    if aOver ≠ bOver then aOver else decide (b.pctUsed ≤ a.pctUsed)
  | false, false => decide (b.spent ≤ a.spent)

/-- `spendingCats.sort(comparator)`: modelled as a sort producing a
permutation ordered by the comparator (the guarantee of
`Array.prototype.sort` with a consistent comparator). -/
def sortSpendingCats (l : List CategoryBudgetData) : List CategoryBudgetData :=
  List.insertionSort (fun a b => rowLe a b = true) l

/-- The sorted flat spending report. -/
def flatSpendingReport (cats : List Category) (txs : List Transaction)
    (budgets : List MonthlyBudget) : List CategoryBudgetData :=
  sortSpendingCats (spendingCatsOf cats txs budgets)

/-- The sort-order relation stated by the spec: a budgeted row precedes an
unbudgeted one; among budgeted rows, over-budget precedes not-over-budget
and within each group higher `pctUsed` comes first; among unbudgeted rows
higher `spent` comes first. -/
def specSortLe (a b : CategoryBudgetData) : Prop :=
  (hasBudgetOpt a.budgetAmount = true ∧ hasBudgetOpt b.budgetAmount = false)
  ∨ (hasBudgetOpt a.budgetAmount = true ∧ hasBudgetOpt b.budgetAmount = true
      ∧ ((100 < a.pctUsed ∧ ¬ 100 < b.pctUsed)
          ∨ (((100 < a.pctUsed) ↔ (100 < b.pctUsed)) ∧ b.pctUsed ≤ a.pctUsed)))
  ∨ (hasBudgetOpt a.budgetAmount = false ∧ hasBudgetOpt b.budgetAmount = false
      ∧ b.spent ≤ a.spent)

/-! ## Grouped report (`buildGroupSections` on the budget screen) -/

/-- A row of the budget screen (`BudgetRow`). -/
structure BudgetRow where
  id : Nat
  name : String
  rule : Rule
  budgetAmount : Option Rat
  actual : Rat
  groupId : Option Nat
  groupName : Option String
  groupColor : Option String
deriving DecidableEq, Repr

/-- A display bucket (`GroupSection`). -/
structure GroupSection where
  key : String
  label : String
  budgeted : Rat
  spent : Rat
  rows : List BudgetRow
  color : Option String
deriving DecidableEq, Repr

/-- The keys of the `groupMap` object: `"income"`, `"unassigned"`, or
`String(g.id)`.  Category-group ids are numbers, so their string forms can
never collide with the two fixed keys; the key space is modelled as an
inductive type. -/
inductive BucketKey where
  | income
  | unassigned
  | group (id : Nat)
deriving DecidableEq, Repr

/-- `INCOME_COLOR` from `utils/categoryColors.ts`. -/
def INCOME_COLOR : String := "#16a34a"

/-- The initial `groupMap`: one empty section per category group (a later
group with the same id would overwrite, as JS object assignment does —
group ids are unique in the database), plus the fixed Unassigned and Income
buckets. -/
def initGroupMap (groups : List CategoryGroup) :
    BucketKey → Option GroupSection :=
  let withGroups := groups.foldl
    (fun m g => fun k =>
      if k = BucketKey.group g.id then
        some { key := String.mk (natRepr g.id), label := g.name
               budgeted := 0, spent := 0, rows := [], color := g.color }
      else m k)
    (fun _ => none)
  fun k =>
    if k = BucketKey.unassigned then
      some { key := "unassigned", label := "Unassigned"
             budgeted := 0, spent := 0, rows := [], color := none }
    else if k = BucketKey.income then
      some { key := "income", label := "Income"
             budgeted := 0, spent := 0, rows := [], color := some INCOME_COLOR }
    else withGroups k

/-- Push a row into a section: `rows.push(row)`;
`if (row.budgetAmount) budgeted += row.budgetAmount` (JS truthiness: `null`
and `0` are falsy); `if (row.actual > 0) spent += row.actual`. -/
def addRowToSection (s : GroupSection) (row : BudgetRow) : GroupSection :=
  { s with
    rows := s.rows ++ [row]
    budgeted :=
      match row.budgetAmount with
      | none => s.budgeted
      | some b => if b = 0 then s.budgeted else s.budgeted + b
    spent := if 0 < row.actual then s.spent + row.actual else s.spent }

/-- Update the section stored at one key (a no-op on an absent key; the
loop below only ever updates keys that `initGroupMap` populated). -/
def updateBucket (m : BucketKey → Option GroupSection) (k : BucketKey)
    (row : BudgetRow) : BucketKey → Option GroupSection :=
  fun q => if q = k then (m k).map (fun s => addRowToSection s row) else m q

/-- The row loop of `buildGroupSections`: income rows go to the Income
bucket; spending rows go to their group's bucket, falling back to
Unassigned when the `groupId` matches no existing bucket
(`groupMap[key] ?? groupMap["unassigned"]`). -/
def groupStep (m : BucketKey → Option GroupSection) (row : BudgetRow) :
    BucketKey → Option GroupSection :=
  if row.rule = Rule.income then updateBucket m BucketKey.income row
  else
    let key := match row.groupId with
      | some g => BucketKey.group g
      | none => BucketKey.unassigned
    let actualKey := if (m key).isSome then key else BucketKey.unassigned
    updateBucket m actualKey row

/-- `buildGroupSections`: Income first (when it has rows), then the named
groups in the order of the `groups` list keeping those with rows, then
Unassigned last (when it has rows). -/
def buildGroupSections (rows : List BudgetRow) (groups : List CategoryGroup) :
    List GroupSection :=
  let m := rows.foldl groupStep (initGroupMap groups)
  let named := (groups.filterMap (fun g => m (BucketKey.group g.id))).filter
    (fun s => decide (s.rows ≠ []))
  let incomePart : List GroupSection :=
    match m BucketKey.income with
    | some s => if s.rows ≠ [] then [s] else []
    | none => []
  let unassignedPart : List GroupSection :=
    match m BucketKey.unassigned with
    | some s => if s.rows ≠ [] then [s] else []
    | none => []
  incomePart ++ named ++ unassignedPart

/-- The `budgetRows` built by the budget screen's `loadData`: one row per
category (every category yields a row, whatever its activity or budget). -/
def budgetRowsOf (cats : List Category) (txs : List Transaction)
    (budgets : List MonthlyBudget) : List BudgetRow :=
  cats.map (fun c =>
    let rawNet := rawNetOf cats txs c.id
    { id := c.id, name := c.name, rule := c.rule
      budgetAmount := budgetMapOf budgets c.id
      actual := if c.rule = Rule.spending then -rawNet else rawNet
      groupId := c.groupId, groupName := c.groupName
      groupColor := c.groupColor })

/-! ## Month-filtered queries, export and import -/

/-- `p` is an initial run of `s` (SQL `LIKE 'p%'` on these all-ASCII
values). -/
def leadsWith : List Char → List Char → Bool
  | [], _ => true
  | _ :: _, [] => false
  | a :: as, b :: bs => a == b && leadsWith as bs

/-- `getTransactionsByMonth`: `WHERE date LIKE 'YYYY-MM%'`.  The query's
`ORDER BY date DESC, id DESC` is omitted: every consumer below aggregates
by key, which is order-independent. -/
def txsByMonth (txs : List Transaction) (month : String) : List Transaction :=
  txs.filter (fun t => leadsWith month.data t.date.data)

/-- The per-transaction projection of `exportMonthData` (the `id` column is
dropped). -/
def stripTransaction (t : Transaction) : TransactionInput :=
  { date := t.date, description := t.description, account := t.account
    isIncome := t.isIncome, amount := t.amount, categoryId := t.categoryId
    notes := t.notes }

/-- The `transactions` array of `exportMonthData`: the month's
transactions with the `id` column dropped. -/
def exportTransactions (txs : List Transaction) (month : String) :
    List TransactionInput :=
  (txsByMonth txs month).map stripTransaction

/-- `tx.notes || null` (an empty string becomes NULL). -/
def normNotes : Option String → Option String
  | none => none
  | some s => if s = "" then none else some s

/-- The insert loop of `importTransactions`, with the next AUTOINCREMENT
id threaded through. -/
def importTransactionsGo (nextId : Nat) :
    List TransactionInput → List Transaction
  | [] => []
  | tx :: rest =>
    { id := nextId, date := tx.date, description := tx.description
      account := tx.account, isIncome := tx.isIncome, amount := tx.amount
      categoryId := tx.categoryId, notes := normNotes tx.notes }
    :: importTransactionsGo (nextId + 1) rest

/-- `importTransactions` into an empty `transactions` table: plain inserts
in array order, ids assigned by AUTOINCREMENT starting at 1. -/
def importTransactions (data : List TransactionInput) : List Transaction :=
  importTransactionsGo 1 data

/-! ## Category deletion (`deleteCategory` and its caller guard) -/

/-- The persistent store, as far as category deletion observes it. -/
structure AppDb where
  categories : List Category
  transactions : List Transaction
  monthly_budgets : BudgetTable
deriving Repr

/-- `SELECT COUNT(*) FROM transactions WHERE categoryId = ?`. -/
def transactionCountForCategory (db : AppDb) (id : Nat) : Nat :=
  (db.transactions.filter (fun t => t.categoryId == id)).length

/-- `categoryHasTransactions`: the flag/count pair returned to callers. -/
def categoryHasTransactions (db : AppDb) (id : Nat) : Bool × Nat :=
  (decide (0 < transactionCountForCategory db id),
    transactionCountForCategory db id)

/-- `deleteCategory`: delete the category's `monthly_budgets` rows, then
the category row itself. -/
def deleteCategory (db : AppDb) (id : Nat) : AppDb :=
  { db with
    monthly_budgets :=
      db.monthly_budgets.filter (fun r => !(r.categoryId == id))
    categories := db.categories.filter (fun c => !(c.id == id)) }

/-- The caller-side guard (`handleDelete` on the categories screen):
refuse when the count is positive, delete otherwise. -/
def guardedDeleteCategory (db : AppDb) (id : Nat) : AppDb :=
  if 0 < transactionCountForCategory db id then db else deleteCategory db id

/-! ## Category groups: insertion and listing -/

/-- `SELECT MAX(sortOrder) FROM category_groups` (`none` on an empty
table). -/
def maxSortOrderOpt (gs : List CategoryGroup) : Option Int :=
  match gs.map (fun g => g.sortOrder) with
  | [] => none
  | x :: xs => some (xs.foldl max x)

/-- `insertCategoryGroup`: append a group with
`sortOrder = (maxOrder ?? 0) + 1` (id assigned by AUTOINCREMENT). -/
def insertCategoryGroup (gs : List CategoryGroup) (name : String)
    (newId : Nat) : List CategoryGroup :=
  gs ++ [{ id := newId, name := name
           sortOrder := (maxSortOrderOpt gs).getD 0 + 1, color := none }]

/-- The `ORDER BY sortOrder ASC, id ASC` relation of `getCategoryGroups`. -/
def groupOrder (g h : CategoryGroup) : Prop :=
  g.sortOrder < h.sortOrder ∨ (g.sortOrder = h.sortOrder ∧ g.id ≤ h.id)

instance : DecidableRel groupOrder := fun g h => by
  unfold groupOrder
  infer_instance

/-- `getCategoryGroups`: the table sorted by `(sortOrder, id)`. -/
def getCategoryGroups (gs : List CategoryGroup) : List CategoryGroup :=
  List.insertionSort groupOrder gs

/-- Sum of the positive `actual` values of a list of rows, written from the
spec's words ("sum of positive actual/spent values among its rows"). -/
def posActualSum (rows : List BudgetRow) : Rat :=
  (rows.map (fun r => if 0 < r.actual then r.actual else 0)).sum

/-- The contribution of one `spentByCategory` entry to the flat income
total. -/
def entryIncomeVal (cats : List Category) (e : Nat × Rat) : Rat :=
  match catMapOf cats e.1 with
  | none => 0
  | some c =>
    match c.rule with
    | Rule.income => e.2
    | Rule.spending => 0

/-- The contribution of one `spentByCategory` entry to the flat spending
total (`spending += -rawNet`). -/
def entrySpendVal (cats : List Category) (e : Nat × Rat) : Rat :=
  match catMapOf cats e.1 with
  | none => 0
  | some c =>
    match c.rule with
    | Rule.income => 0
    | Rule.spending => -e.2

/-- The flat spending total attributed to one category id: `-rawNet` when
the id resolves to a spending category, `0` otherwise. -/
def spendContribution (cats : List Category) (txs : List Transaction)
    (k : Nat) : Rat :=
  match catMapOf cats k with
  | none => 0
  | some c =>
    match c.rule with
    | Rule.income => 0
    | Rule.spending => -(rawNetOf cats txs k)

/-- Example for the grouped/flat asymmetry: one group ... -/
def exampleProfitGroups : List CategoryGroup :=
  [ { id := 1, name := "Essentials", sortOrder := 1, color := none } ]

/-- ... two spending categories in that group ... -/
def exampleProfitCats : List Category :=
  [ { id := 1, name := "Rent", rule := Rule.spending, budgetAmount := none
      groupId := some 1, groupName := some "Essentials", groupColor := none },
    { id := 2, name := "Food", rule := Rule.spending, budgetAmount := none
      groupId := some 1, groupName := some "Essentials", groupColor := none } ]

/-- ... and transactions giving them actuals −20 (a reimbursement of 20 in
category 1) and +50 (an expense of 50 in category 2). -/
def exampleProfitTxs : List Transaction :=
  [ { id := 1, date := "2024-05-02", description := "refund", account := "a"
      isIncome := 1, amount := 20, categoryId := 1, notes := none },
    { id := 2, date := "2024-05-03", description := "groceries", account := "a"
      isIncome := 0, amount := 50, categoryId := 2, notes := none } ]

/-- Spec example for the flat sort: A (budget 100, spent 120),
B (budget 50, spent 40), C (no budget, spent 30). -/
def exampleSortCats : List Category :=
  [ { id := 1, name := "A", rule := Rule.spending, budgetAmount := none
      groupId := none, groupName := none, groupColor := none },
    { id := 2, name := "B", rule := Rule.spending, budgetAmount := none
      groupId := none, groupName := none, groupColor := none },
    { id := 3, name := "C", rule := Rule.spending, budgetAmount := none
      groupId := none, groupName := none, groupColor := none } ]

/-- Transactions producing spent 120, 40, 30 for A, B, C. -/
def exampleSortTxs : List Transaction :=
  [ { id := 1, date := "2024-05-01", description := "a", account := "x"
      isIncome := 0, amount := 120, categoryId := 1, notes := none },
    { id := 2, date := "2024-05-01", description := "b", account := "x"
      isIncome := 0, amount := 40, categoryId := 2, notes := none },
    { id := 3, date := "2024-05-01", description := "c", account := "x"
      isIncome := 0, amount := 30, categoryId := 3, notes := none } ]

/-- Budgets 100 for A and 50 for B; none for C. -/
def exampleSortBudgets : List MonthlyBudget :=
  [ { categoryId := 1, budgetAmount := 100 },
    { categoryId := 2, budgetAmount := 50 } ]

/-- The bucket a row lands in: income rows go to Income; spending rows go
to their group's bucket when that group exists, else Unassigned.  (This is
the resolution the row loop of `buildGroupSections` performs through the
`groupMap[key] ?? groupMap["unassigned"]` fallback.) -/
def resolvedKey (groups : List CategoryGroup) (row : BudgetRow) : BucketKey :=
  if row.rule = Rule.income then BucketKey.income
  else
    match row.groupId with
    | some g =>
      if groups.any (fun h => h.id == g) then BucketKey.group g
      else BucketKey.unassigned
    | none => BucketKey.unassigned

/-- The string key stored on each bucket's section. -/
def bucketKeyString : BucketKey → String
  | BucketKey.income => "income"
  | BucketKey.unassigned => "unassigned"
  | BucketKey.group g => String.mk (natRepr g)

/-- A category with no transactions and no budget, member of group 1. -/
def exampleIdleCats : List Category :=
  [ { id := 1, name := "Misc", rule := Rule.spending, budgetAmount := none
      groupId := some 1, groupName := some "G", groupColor := none } ]

/-- The single category group of the idle example. -/
def exampleIdleGroups : List CategoryGroup :=
  [ { id := 1, name := "G", sortOrder := 1, color := none } ]

/-- `shiftMonth` from the settings screen:
`const [year, mm] = month.split("-").map(Number);`
`const d = new Date(year, mm - 1 + delta, 1);`
`return ` followed by the year, a dash, and the zero-padded month of `d`.
The JS `Date` constructor normalizes an out-of-range month index by floor
division, and remaps a year argument between 0 and 99 to 1900 + year; an
unparseable input yields the string "NaN-NaN". -/
def shiftMonth (month : String) (delta : Int) : String :=
  match splitOnChar '-' month.data with
  | yc :: mc :: _ =>
    match parseDigits yc, parseDigits mc with
    | some year, some m =>
      let idx : Int := (m : Int) - 1 + delta
      let baseYear : Int :=
        if 0 ≤ (year : Int) ∧ (year : Int) ≤ 99 then (year : Int) + 1900
        else (year : Int)
      let ry : Int := baseYear + idx.fdiv 12
      let rm : Int := idx.fmod 12 + 1
      String.mk (intRepr ry ++ '-' :: pad2 rm.toNat)
    | _, _ => "NaN-NaN"
  | _ => "NaN-NaN"

/-- The canonical key of year `y`, month `m`. -/
def monthKey (y : Int) (m : Nat) : String :=
  String.mk (intRepr y ++ '-' :: pad2 m)

/-- Modelled from the claim's words: the calendar month exactly `delta`
months after year `y`, month `m`, computed on the total month count. -/
def calendarMonthAfter (y : Int) (m : Nat) (delta : Int) : Int × Int :=
  let t : Int := y * 12 + ((m : Int) - 1) + delta
  (t.fdiv 12, t.fmod 12 + 1)

/-- Example table from the spec: budgets exist only at "2024-01" and
"2024-03". -/
def exampleBudgetTable : BudgetTable :=
  [ { categoryId := 1, month := "2024-01", budgetAmount := 100 },
    { categoryId := 1, month := "2024-03", budgetAmount := 500 } ]

/-! # Theorems -/

/-! ## Lexicographic order facts -/

theorem lexLt_irrefl (l : List Char) : lexLt l l = false := by
  induction l with
  | nil => rfl
  | cons a as ih => simp [lexLt, ih]

theorem lexLt_asymm :
    ∀ {a b : List Char}, lexLt a b = true → lexLt b a = false
  | _, [], h => by simp [lexLt] at h
  | [], _ :: _, _ => rfl
  | a :: as, b :: bs, h => by
    by_cases hab : a.toNat < b.toNat
    · simp [lexLt, hab, Nat.lt_asymm hab]
    · by_cases hba : b.toNat < a.toNat
      · simp [lexLt, hab, hba] at h
      · simp [lexLt, hab, hba] at h ⊢
        exact lexLt_asymm h

theorem lexLt_antisymm :
    ∀ {a b : List Char}, lexLt a b = false → lexLt b a = false → a = b
  | [], [], _, _ => rfl
  | [], _ :: _, h, _ => by cases h
  | _ :: _, [], _, h => by cases h
  | a :: as, b :: bs, h₁, h₂ => by
    by_cases hab : a.toNat < b.toNat
    · simp [lexLt, hab] at h₁
    · by_cases hba : b.toNat < a.toNat
      · simp [lexLt, hba, Nat.lt_asymm hba] at h₂
      · simp [lexLt, hab, hba] at h₁ h₂
        have h3 : a.toNat = b.toNat := by omega
        have hc : a = b := Char.ext (by
          apply UInt32.ext
          simpa [Char.toNat] using h3)
        rw [hc, lexLt_antisymm h₁ h₂]

theorem lexLt_trans :
    ∀ {a b c : List Char}, lexLt a b = true → lexLt b c = true → lexLt a c = true
  | _, _, [], _, h => by simp [lexLt] at h
  | _, [], _ :: _, h, _ => by simp [lexLt] at h
  | [], _ :: _, _ :: _, _, _ => rfl
  | a :: as, b :: bs, c :: cs, h₁, h₂ => by
    by_cases hab : a.toNat < b.toNat
    · by_cases hbc : b.toNat < c.toNat
      · simp [lexLt, Nat.lt_trans hab hbc]
      · by_cases hcb : c.toNat < b.toNat
        · simp [lexLt, hbc, hcb] at h₂
        · have : b.toNat = c.toNat := by omega
          simp [lexLt, this ▸ hab]
    · by_cases hba : b.toNat < a.toNat
      · simp [lexLt, hab, hba] at h₁
      · have hab' : a.toNat = b.toNat := by omega
        simp [lexLt, hab, hba] at h₁
        by_cases hbc : b.toNat < c.toNat
        · simp [lexLt, hab' ▸ hbc]
        · by_cases hcb : c.toNat < b.toNat
          · simp [lexLt, hbc, hcb] at h₂
          · simp [lexLt, hbc, hcb] at h₂
            have hcn : ¬ a.toNat < c.toNat := by omega
            have hcn' : ¬ c.toNat < a.toNat := by omega
            simp [lexLt, hcn, hcn', lexLt_trans h₁ h₂]

theorem not_lexLt_trans {a b c : List Char} (h₁ : lexLt a b = false)
    (h₂ : lexLt b c = false) : lexLt a c = false := by
  by_contra h
  have hac : lexLt a c = true := by
    cases hx : lexLt a c with
    | true => rfl
    | false => exact absurd hx h
  by_cases hba : lexLt b a = true
  · have := lexLt_trans hba hac
    rw [this] at h₂
    cases h₂
  · have hab : a = b := lexLt_antisymm h₁ (by
      cases hx : lexLt b a with
      | true => exact absurd hx hba
      | false => rfl)
    rw [hab] at hac
    rw [hac] at h₂
    cases h₂

theorem strLt_irrefl (s : String) : strLt s s = false := lexLt_irrefl s.data

theorem strLt_trans {a b c : String} (h₁ : strLt a b = true)
    (h₂ : strLt b c = true) : strLt a c = true := lexLt_trans h₁ h₂

theorem not_strLt_trans {a b c : String} (h₁ : strLt a b = false)
    (h₂ : strLt b c = false) : strLt a c = false := not_lexLt_trans h₁ h₂

theorem strLt_antisymm {a b : String} (h₁ : strLt a b = false)
    (h₂ : strLt b a = false) : a = b := by
  cases a with
  | mk da =>
    cases b with
    | mk db =>
      exact congrArg String.mk (lexLt_antisymm h₁ h₂)

/-! ## Correctness of the most-recent-month scan -/

theorem gmrm_go (bound : String) (db : BudgetTable) :
    ∀ (acc : Option String), (∀ s, acc = some s → strLt s bound = true) →
      (db.foldl (gmrmStep bound) acc = none →
          acc = none ∧ ∀ m ∈ monthsOf db, strLt m bound = false)
      ∧ (∀ t, db.foldl (gmrmStep bound) acc = some t →
          strLt t bound = true
          ∧ (acc = some t ∨ t ∈ monthsOf db)
          ∧ (∀ s, acc = some s → strLt t s = false)
          ∧ (∀ m ∈ monthsOf db, strLt m bound = true → strLt t m = false)) := by
  induction db with
  | nil =>
    intro acc hinv
    constructor
    · intro h
      exact ⟨h, by simp [monthsOf]⟩
    · intro t ht
      simp only [List.foldl_nil] at ht
      refine ⟨hinv t ht, Or.inl ht, ?_, by simp [monthsOf]⟩
      intro s hs
      rw [ht] at hs
      injection hs with hts
      rw [hts]
      exact strLt_irrefl s
  | cons r db ih =>
    intro acc hinv
    have hmem_cons : ∀ m : String, m ∈ monthsOf (r :: db) ↔
        m = r.month ∨ m ∈ monthsOf db := by
      intro m
      simp [monthsOf]
    by_cases hr : strLt r.month bound = true
    · rcases acc with _ | s0
      · -- acc = none: the head row becomes the accumulator
        have hstep : gmrmStep bound none r = some r.month := by
          simp [gmrmStep, hr]
        have hfold : (r :: db).foldl (gmrmStep bound) none
            = db.foldl (gmrmStep bound) (some r.month) := by
          rw [List.foldl_cons, hstep]
        have hinv' : ∀ s, (some r.month : Option String) = some s →
            strLt s bound = true := by
          intro s hs
          injection hs with h
          rw [← h]
          exact hr
        obtain ⟨ihn, ihs⟩ := ih (some r.month) hinv'
        constructor
        · intro h
          rw [hfold] at h
          obtain ⟨h1, _⟩ := ihn h
          cases h1
        · intro t ht
          rw [hfold] at ht
          obtain ⟨hb, hmem, hge, hmax⟩ := ihs t ht
          refine ⟨hb, ?_, ?_, ?_⟩
          · rcases hmem with h | h
            · injection h with h
              exact Or.inr ((hmem_cons t).mpr (Or.inl h.symm))
            · exact Or.inr ((hmem_cons t).mpr (Or.inr h))
          · intro s hs
            cases hs
          · intro m hm hmlt
            rcases (hmem_cons m).mp hm with h | h
            · rw [h]
              exact hge r.month rfl
            · exact hmax m h hmlt
      · by_cases hs0 : strLt s0 r.month = true
        · -- the head row improves on the accumulator
          have hstep : gmrmStep bound (some s0) r = some r.month := by
            simp [gmrmStep, hr, hs0]
          have hfold : (r :: db).foldl (gmrmStep bound) (some s0)
              = db.foldl (gmrmStep bound) (some r.month) := by
            rw [List.foldl_cons, hstep]
          have hinv' : ∀ s, (some r.month : Option String) = some s →
              strLt s bound = true := by
            intro s hs
            injection hs with h
            rw [← h]
            exact hr
          obtain ⟨ihn, ihs⟩ := ih (some r.month) hinv'
          constructor
          · intro h
            rw [hfold] at h
            obtain ⟨h1, _⟩ := ihn h
            cases h1
          · intro t ht
            rw [hfold] at ht
            obtain ⟨hb, hmem, hge, hmax⟩ := ihs t ht
            have htr : strLt t r.month = false := hge r.month rfl
            refine ⟨hb, ?_, ?_, ?_⟩
            · rcases hmem with h | h
              · injection h with h
                exact Or.inr ((hmem_cons t).mpr (Or.inl h.symm))
              · exact Or.inr ((hmem_cons t).mpr (Or.inr h))
            · intro s hs
              injection hs with h
              rw [← h]
              cases hx : strLt t s0 with
              | false => rfl
              | true =>
                have := strLt_trans hx hs0
                rw [this] at htr
                cases htr
            · intro m hm hmlt
              rcases (hmem_cons m).mp hm with h | h
              · rw [h]
                exact htr
              · exact hmax m h hmlt
        · -- the accumulator is kept
          have hs0f : strLt s0 r.month = false := by
            cases hx : strLt s0 r.month with
            | false => rfl
            | true => exact absurd hx hs0
          have hstep : gmrmStep bound (some s0) r = some s0 := by
            simp [gmrmStep, hr, hs0f]
          have hfold : (r :: db).foldl (gmrmStep bound) (some s0)
              = db.foldl (gmrmStep bound) (some s0) := by
            rw [List.foldl_cons, hstep]
          obtain ⟨ihn, ihs⟩ := ih (some s0) hinv
          constructor
          · intro h
            rw [hfold] at h
            obtain ⟨h1, _⟩ := ihn h
            cases h1
          · intro t ht
            rw [hfold] at ht
            obtain ⟨hb, hmem, hge, hmax⟩ := ihs t ht
            have hts0 : strLt t s0 = false := hge s0 rfl
            refine ⟨hb, ?_, ?_, ?_⟩
            · rcases hmem with h | h
              · exact Or.inl h
              · exact Or.inr ((hmem_cons t).mpr (Or.inr h))
            · intro s hs
              injection hs with h
              rw [← h]
              exact hts0
            · intro m hm hmlt
              rcases (hmem_cons m).mp hm with h | h
              · rw [h]
                exact not_strLt_trans hts0 hs0f
              · exact hmax m h hmlt
    · -- the head row's month is not below the bound: no change
      have hrf : strLt r.month bound = false := by
        cases hx : strLt r.month bound with
        | false => rfl
        | true => exact absurd hx hr
      have hstep : gmrmStep bound acc r = acc := by
        simp [gmrmStep, hrf]
      have hfold : (r :: db).foldl (gmrmStep bound) acc
          = db.foldl (gmrmStep bound) acc := by
        rw [List.foldl_cons, hstep]
      obtain ⟨ihn, ihs⟩ := ih acc hinv
      constructor
      · intro h
        rw [hfold] at h
        obtain ⟨h1, h2⟩ := ihn h
        refine ⟨h1, ?_⟩
        intro m hm
        rcases (hmem_cons m).mp hm with h | h
        · rw [h]
          exact hrf
        · exact h2 m h
      · intro t ht
        rw [hfold] at ht
        obtain ⟨hb, hmem, hge, hmax⟩ := ihs t ht
        refine ⟨hb, ?_, hge, ?_⟩
        · rcases hmem with h | h
          · exact Or.inl h
          · exact Or.inr ((hmem_cons t).mpr (Or.inr h))
        · intro m hm hmlt
          rcases (hmem_cons m).mp hm with h | h
          · rw [h] at hmlt
            rw [hmlt] at hrf
            cases hrf
          · exact hmax m h hmlt

theorem gMRM_none {db : BudgetTable} {bound : String}
    (h : getMostRecentMonthWithBudgets db bound = none) :
    ∀ m ∈ monthsOf db, strLt m bound = false :=
  ((gmrm_go bound db none (by intro s hs; cases hs)).1 h).2

theorem gMRM_some {db : BudgetTable} {bound t : String}
    (h : getMostRecentMonthWithBudgets db bound = some t) :
    strLt t bound = true ∧ t ∈ monthsOf db
      ∧ ∀ m ∈ monthsOf db, strLt m bound = true → strLt t m = false := by
  obtain ⟨hb, hmem, _, hmax⟩ :=
    (gmrm_go bound db none (by intro s hs; cases hs)).2 t h
  refine ⟨hb, ?_, hmax⟩
  rcases hmem with h | h
  · cases h
  · exact h

/-! ## The `month < target ++ "~"` bound used by `changeMonth` -/

theorem lexLt_append_last :
    ∀ (as bs : List Char) (c : Char), as.length = bs.length →
      (lexLt as (bs ++ [c]) = true ↔ (lexLt as bs = true ∨ as = bs))
  | [], [], c, _ => by simp [lexLt]
  | [], _ :: _, _, h => by simp at h
  | _ :: _, [], _, h => by simp at h
  | a :: as, b :: bs, c, h => by
    simp only [List.length_cons, Nat.add_right_cancel_iff] at h
    by_cases hab : a.toNat < b.toNat
    · simp [lexLt, hab]
    · by_cases hba : b.toNat < a.toNat
      · have hne : a ≠ b := by
          intro he
          rw [he] at hba
          omega
        simp [lexLt, hab, hba, hne]
      · have h3 : a.toNat = b.toNat := by omega
        have hc : a = b := Char.ext (by
          apply UInt32.ext
          simpa [Char.toNat] using h3)
        subst hc
        simp only [List.cons_append, lexLt, hab, if_neg hab, if_false,
          List.cons.injEq, true_and]
        exact lexLt_append_last as bs c h

theorem strLt_to_tilde {m target : String} (hlen : m.length = target.length) :
    strLt m (target ++ "~") = true ↔ (strLt m target = true ∨ m = target) := by
  unfold strLt
  rw [String.data_append]
  have h1 : ("~" : String).data = ['~'] := rfl
  rw [h1]
  have h2 : m.data.length = target.data.length := hlen
  rw [lexLt_append_last m.data target.data '~' h2]
  constructor
  · rintro (h | h)
    · exact Or.inl h
    · refine Or.inr ?_
      cases m
      cases target
      exact congrArg String.mk h
  · rintro (h | h)
    · exact Or.inl h
    · refine Or.inr ?_
      rw [h]

theorem hasMonthlyBudgets_false_iff {db : BudgetTable} {t : String} :
    hasMonthlyBudgets db t = false ↔ ∀ r ∈ db, r.month ≠ t := by
  unfold hasMonthlyBudgets
  simp

/-- C2: the rollover engine's search for a source month returns the most
recent month with at least one `monthly_budgets` row that is strictly less
than the target month in lexicographic order — never the target itself or a
later month.  This holds for the direct call (`loadOverview`, bound =
`target`) and, given that all stored month keys have the zero-padded
"YYYY-MM" length and the target month has no budget rows (the guard under
which `changeMonth` issues the query), also for the `target ++ "~"` bound
used by `changeMonth`.  With budgets only at "2024-01" and "2024-03", the
source for "2024-04" is "2024-03", the source for "2024-02" is "2024-01",
and when no prior month exists the rollover leaves the table unchanged and
the target month empty. -/
theorem claim_C2 (db : BudgetTable) (target : String)
    (hlen : ∀ m ∈ monthsOf db, m.length = target.length)
    (hno : hasMonthlyBudgets db target = false) :
    (∀ src, getMostRecentMonthWithBudgets db target = some src →
        strLt src target = true ∧ src ∈ monthsOf db ∧
        ∀ m ∈ monthsOf db, strLt m target = true → strLt src m = false)
    ∧ (getMostRecentMonthWithBudgets db target = none →
        (∀ m ∈ monthsOf db, strLt m target = false)
        ∧ rollover db target = db
        ∧ hasMonthlyBudgets (rollover db target) target = false)
    ∧ (∀ src, getMostRecentMonthWithBudgets db (target ++ "~") = some src →
        strLt src target = true ∧ src ∈ monthsOf db ∧
        ∀ m ∈ monthsOf db, strLt m target = true → strLt src m = false)
    ∧ (getMostRecentMonthWithBudgets exampleBudgetTable "2024-04"
          = some "2024-03"
       ∧ getMostRecentMonthWithBudgets exampleBudgetTable "2024-02"
          = some "2024-01"
       ∧ getMostRecentMonthWithBudgets exampleBudgetTable
            ("2024-04" ++ "~") = some "2024-03") := by
  refine ⟨?_, ?_, ?_, by decide, by decide, by decide⟩
  · intro src hsrc
    obtain ⟨hb, hmem, hmax⟩ := gMRM_some hsrc
    exact ⟨hb, hmem, hmax⟩
  · intro hn
    have h1 := gMRM_none hn
    have h2 : rollover db target = db := by
      unfold rollover
      rw [hno, hn]
      simp
    exact ⟨h1, h2, by rw [h2]; exact hno⟩
  · intro src hsrc
    obtain ⟨hb, hmem, hmax⟩ := gMRM_some hsrc
    have hsl : src.length = target.length := hlen src hmem
    have hne : src ≠ target := by
      intro he
      obtain ⟨r, hr, hrm⟩ := by
        simpa [monthsOf] using hmem
      exact (hasMonthlyBudgets_false_iff.mp hno r hr) (by rw [hrm, he])
    have hb' : strLt src target = true := by
      rcases (strLt_to_tilde hsl).mp hb with h | h
      · exact h
      · exact absurd h hne
    refine ⟨hb', hmem, ?_⟩
    intro m hm hmlt
    have hml : m.length = target.length := hlen m hm
    exact hmax m hm ((strLt_to_tilde hml).mpr (Or.inl hmlt))

theorem claim_C2_witness :
    ((∀ m ∈ monthsOf exampleBudgetTable, m.length = ("2024-04" : String).length)
      ∧ hasMonthlyBudgets exampleBudgetTable "2024-04" = false)
    ∧ strLt "2024-03" "2024-04" = true :=
  ⟨⟨by decide, by decide⟩,
    ((claim_C2 exampleBudgetTable "2024-04" (by decide) (by decide)).1
      "2024-03" (by decide)).1⟩

/-! ## Idempotence of the rollover -/

theorem hasMonthlyBudgets_insertIfAbsent {db : BudgetTable}
    {row : MonthlyBudgetRow} {t : String}
    (h : hasMonthlyBudgets db t = true) :
    hasMonthlyBudgets (insertIfAbsent db row) t = true := by
  unfold insertIfAbsent
  by_cases hc : db.any
      (fun r => r.categoryId == row.categoryId && r.month == row.month) = true
  · rw [if_pos hc]
    exact h
  · rw [if_neg hc]
    unfold hasMonthlyBudgets at h ⊢
    rw [List.any_append, h]
    rfl

theorem hasMonthlyBudgets_copyFold {t : String} (l : List MonthlyBudgetRow)
    (target : String) :
    ∀ acc : BudgetTable, hasMonthlyBudgets acc t = true →
      hasMonthlyBudgets
        (l.foldl
          (fun acc r =>
            insertIfAbsent acc
              { categoryId := r.categoryId, month := target
                budgetAmount := r.budgetAmount }) acc) t = true := by
  induction l with
  | nil =>
    intro acc h
    exact h
  | cons f rest ih =>
    intro acc h
    rw [List.foldl_cons]
    exact ih _ (hasMonthlyBudgets_insertIfAbsent h)

theorem hasMonthlyBudgets_copy {db : BudgetTable} {src t : String}
    (hsrc : ∃ r ∈ db, r.month = src)
    (hno : hasMonthlyBudgets db t = false) :
    hasMonthlyBudgets (copyBudgetsFromMonth db src t) t = true := by
  unfold copyBudgetsFromMonth
  cases hfl : db.filter (fun r => r.month == src) with
  | nil =>
    exfalso
    obtain ⟨r, hr, hrm⟩ := hsrc
    have : r ∈ db.filter (fun r => r.month == src) := by
      rw [List.mem_filter]
      exact ⟨hr, by simp [hrm]⟩
    rw [hfl] at this
    cases this
  | cons f rest =>
    rw [List.foldl_cons]
    apply hasMonthlyBudgets_copyFold
    have hnof : db.any
        (fun r => r.categoryId == f.categoryId && r.month == t) = false := by
      rw [List.any_eq_false]
      intro r hr
      have hrt : r.month ≠ t := hasMonthlyBudgets_false_iff.mp hno r hr
      simp [hrt]
    unfold insertIfAbsent
    simp only [hnof]
    rw [if_neg (by simp)]
    unfold hasMonthlyBudgets
    rw [List.any_append]
    simp

/-- C3: the rollover operation is idempotent — for every table state and
target month, running it twice in succession leaves exactly the same
`monthly_budgets` rows as running it once (the second run is a no-op,
because either the first run was already a no-op or it left the target
month non-empty). -/
theorem claim_C3 :
    ∀ (db : BudgetTable) (targetMonth : String),
      rollover (rollover db targetMonth) targetMonth
        = rollover db targetMonth := by
  intro db t
  by_cases h : hasMonthlyBudgets db t = true
  · have h1 : rollover db t = db := by
      unfold rollover
      rw [if_pos h]
    rw [h1, h1]
  · have hf : hasMonthlyBudgets db t = false := by
      cases hx : hasMonthlyBudgets db t with
      | false => rfl
      | true => exact absurd hx h
    cases hs : getMostRecentMonthWithBudgets db t with
    | none =>
      have h1 : rollover db t = db := by
        unfold rollover
        rw [hf, hs]
        simp
      rw [h1, h1]
    | some src =>
      have h1 : rollover db t = copyBudgetsFromMonth db src t := by
        unfold rollover
        rw [hf, hs]
        simp
      obtain ⟨_, hmem, _⟩ := gMRM_some hs
      have hsrc : ∃ r ∈ db, r.month = src := by
        simpa [monthsOf] using hmem
      have h2 : hasMonthlyBudgets (copyBudgetsFromMonth db src t) t = true :=
        hasMonthlyBudgets_copy hsrc hf
      rw [h1]
      unfold rollover
      rw [if_pos h2]

/-! ## Per-category aggregation facts -/

theorem lookupEntry_upsert_self (m : List (Nat × Rat)) (k : Nat) (v : Rat) :
    lookupEntry (upsertEntry m k v) k
      = some ((lookupEntry m k).getD 0 + v) := by
  induction m with
  | nil => simp [upsertEntry, lookupEntry]
  | cons e rest ih =>
    by_cases he : e.1 = k
    · simp [upsertEntry, lookupEntry, he]
    · simp [upsertEntry, lookupEntry, he, ih]

theorem lookupEntry_upsert_other (m : List (Nat × Rat)) {k k' : Nat}
    (hne : k' ≠ k) (v : Rat) :
    lookupEntry (upsertEntry m k v) k' = lookupEntry m k' := by
  have hkk : ¬ k = k' := fun h => hne h.symm
  induction m with
  | nil => simp [upsertEntry, lookupEntry, hkk]
  | cons e rest ih =>
    by_cases he : e.1 = k
    · simp [upsertEntry, lookupEntry, he, hkk]
    · by_cases he' : e.1 = k'
      · simp [upsertEntry, lookupEntry, he, he', hne]
      · simp [upsertEntry, lookupEntry, he, he', ih]

theorem signedSum_cons (tx : Transaction) (txs : List Transaction) (k : Nat) :
    signedSum (tx :: txs) k
      = (if tx.categoryId = k
          then getSignedAmount tx.amount (tx.isIncome == 1) else 0)
        + signedSum txs k := by
  by_cases h : tx.categoryId = k
  · simp [signedSum, List.filter_cons, h]
  · simp [signedSum, List.filter_cons, h]

theorem buildSpentMap_go (cats : List Category) :
    ∀ (txs : List Transaction) (m : List (Nat × Rat)) (k : Nat),
      (lookupEntry
        (txs.foldl
          (fun m tx =>
            match catMapOf cats tx.categoryId with
            | none => m
            | some _ =>
              upsertEntry m tx.categoryId
                (getSignedAmount tx.amount (tx.isIncome == 1)))
          m) k).getD 0
      = (lookupEntry m k).getD 0
        + if (catMapOf cats k).isSome then signedSum txs k else 0 := by
  intro txs
  induction txs with
  | nil =>
    intro m k
    by_cases h : (catMapOf cats k).isSome
    · simp [h, signedSum]
    · simp [h]
  | cons tx txs ih =>
    intro m k
    rw [List.foldl_cons]
    by_cases hcid : tx.categoryId = k
    · rw [hcid]
      cases hc : catMapOf cats k with
      | none =>
        rw [ih m k]
        simp [hc]
      | some c0 =>
        rw [ih _ k]
        rw [lookupEntry_upsert_self]
        simp only [Option.getD_some, hc, Option.isSome_some, if_true,
          signedSum_cons, hcid, if_pos]
        ring
    · cases hc : catMapOf cats tx.categoryId with
      | none =>
        rw [ih m k]
        rw [signedSum_cons]
        simp [hcid]
      | some c0 =>
        rw [ih _ k]
        rw [lookupEntry_upsert_other _ (fun h => hcid h.symm)]
        rw [signedSum_cons]
        simp [hcid]

theorem rawNetOf_eq_signedSum {cats : List Category} {k : Nat}
    (h : (catMapOf cats k).isSome = true) (txs : List Transaction) :
    rawNetOf cats txs k = signedSum txs k := by
  unfold rawNetOf buildSpentMap
  rw [buildSpentMap_go cats txs [] k]
  simp [lookupEntry, h]

theorem catMap_fold_isSome (k : Nat) :
    ∀ (cats : List Category) (base : Nat → Option Category),
      (base k).isSome = true →
      ((cats.foldl (fun m c => fun q => if q = c.id then some c else m q)
        base) k).isSome = true := by
  intro cats
  induction cats with
  | nil =>
    intro base h
    exact h
  | cons c0 rest ih =>
    intro base h
    rw [List.foldl_cons]
    apply ih
    by_cases hq : k = c0.id
    · simp [hq]
    · simpa [hq] using h

theorem catMap_fold_isSome_of_mem (c : Category) :
    ∀ (cats : List Category) (base : Nat → Option Category),
      c ∈ cats →
      ((cats.foldl (fun m c => fun q => if q = c.id then some c else m q)
        base) c.id).isSome = true := by
  intro cats
  induction cats with
  | nil =>
    intro base h
    cases h
  | cons c0 rest ih =>
    intro base hc
    rw [List.foldl_cons]
    rcases List.mem_cons.mp hc with h | h
    · apply catMap_fold_isSome
      simp [h]
    · exact ih _ h

theorem catMapOf_isSome_of_mem {cats : List Category} {c : Category}
    (hc : c ∈ cats) : (catMapOf cats c.id).isSome = true :=
  catMap_fold_isSome_of_mem c cats (fun _ => none) hc

theorem buildSpentMap_skips (cats : List Category) (txs : List Transaction) :
    buildSpentMap cats txs
      = buildSpentMap cats
          (txs.filter (fun tx => (catMapOf cats tx.categoryId).isSome)) := by
  unfold buildSpentMap
  generalize ([] : List (Nat × Rat)) = m
  induction txs generalizing m with
  | nil => rfl
  | cons tx txs ih =>
    cases hc : catMapOf cats tx.categoryId with
    | none =>
      rw [List.filter_cons]
      simp only [hc, Option.isSome_none]
      rw [List.foldl_cons]
      simp only [hc]
      rw [ih m]
      rfl
    | some c0 =>
      rw [List.filter_cons]
      simp only [hc, Option.isSome_some, if_pos]
      rw [List.foldl_cons, List.foldl_cons]
      simp only [hc]
      exact ih _

/-- C6: a transaction's signed contribution is `amount` when income and
`-amount` otherwise; for every spending-rule category present in the
category list, the displayed spent value is the negation of the net signed
sum of its transactions, and it is negative ("profit") exactly when that
sum is positive; transactions whose `categoryId` resolves to no category
are skipped by the aggregation. -/
theorem claim_C6 (cats : List Category) (txs : List Transaction)
    (c : Category) (hc : c ∈ cats) (hr : c.rule = Rule.spending) :
    (∀ (amount : Rat) (inc : Bool),
        getSignedAmount amount inc = if inc then amount else -amount)
    ∧ spentFor cats txs c = -(signedSum txs c.id)
    ∧ (spentFor cats txs c < 0 ↔ 0 < signedSum txs c.id)
    ∧ buildSpentMap cats txs
        = buildSpentMap cats
            (txs.filter (fun tx => (catMapOf cats tx.categoryId).isSome)) := by
  have hsome := catMapOf_isSome_of_mem hc
  have hraw := rawNetOf_eq_signedSum hsome txs
  have hspent : spentFor cats txs c = -(signedSum txs c.id) := by
    unfold spentFor
    rw [if_pos hr, hraw]
  refine ⟨fun amount inc => rfl, hspent, ?_, buildSpentMap_skips cats txs⟩
  rw [hspent]
  constructor
  · intro h
    linarith
  · intro h
    linarith

theorem claim_C6_witness :
    (({ id := 1, name := "Food", rule := Rule.spending, budgetAmount := none
        groupId := none, groupName := none, groupColor := none } : Category)
        ∈ [({ id := 1, name := "Food", rule := Rule.spending
              budgetAmount := none, groupId := none, groupName := none
              groupColor := none } : Category)]
      ∧ ({ id := 1, name := "Food", rule := Rule.spending
           budgetAmount := none, groupId := none, groupName := none
           groupColor := none } : Category).rule = Rule.spending)
    ∧ spentFor
        [({ id := 1, name := "Food", rule := Rule.spending
            budgetAmount := none, groupId := none, groupName := none
            groupColor := none } : Category)]
        [({ id := 7, date := "2024-05-01", description := "d", account := "a"
            isIncome := 0, amount := 30, categoryId := 1
            notes := none } : Transaction)]
        { id := 1, name := "Food", rule := Rule.spending, budgetAmount := none
          groupId := none, groupName := none, groupColor := none }
      = -(signedSum
          [({ id := 7, date := "2024-05-01", description := "d", account := "a"
              isIncome := 0, amount := 30, categoryId := 1
              notes := none } : Transaction)] 1) :=
  ⟨⟨by decide, by decide⟩,
    (claim_C6 _ _ _ (by decide) (by decide)).2.1⟩

/-! ## Grouped-report bucket totals -/

theorem posActualSum_append (l : List BudgetRow) (r : BudgetRow) :
    posActualSum (l ++ [r])
      = posActualSum l + (if 0 < r.actual then r.actual else 0) := by
  simp [posActualSum]

theorem updateBucket_spent {m : BucketKey → Option GroupSection}
    (hm : ∀ k s, m k = some s → s.spent = posActualSum s.rows)
    (k' : BucketKey) (row : BudgetRow) :
    ∀ k s, updateBucket m k' row k = some s → s.spent = posActualSum s.rows := by
  intro k s h
  unfold updateBucket at h
  by_cases hk : k = k'
  · rw [if_pos hk] at h
    cases hmk : m k' with
    | none =>
      rw [hmk] at h
      cases h
    | some s0 =>
      rw [hmk] at h
      rw [Option.map_some'] at h
      injection h with h
      have h0 := hm k' s0 hmk
      rw [← h]
      unfold addRowToSection
      by_cases ha : 0 < row.actual
      · simp [posActualSum_append, ha, h0]
      · simp [posActualSum_append, ha, h0]
  · rw [if_neg hk] at h
    exact hm k s h

theorem groupStep_spent {m : BucketKey → Option GroupSection}
    (hm : ∀ k s, m k = some s → s.spent = posActualSum s.rows)
    (row : BudgetRow) :
    ∀ k s, groupStep m row k = some s → s.spent = posActualSum s.rows := by
  intro k s h
  unfold groupStep at h
  by_cases hr : row.rule = Rule.income
  · rw [if_pos hr] at h
    exact updateBucket_spent hm _ row k s h
  · rw [if_neg hr] at h
    exact updateBucket_spent hm _ row k s h

theorem groupFold_spent (rows : List BudgetRow) :
    ∀ (m : BucketKey → Option GroupSection),
      (∀ k s, m k = some s → s.spent = posActualSum s.rows) →
      ∀ k s, (rows.foldl groupStep m) k = some s
        → s.spent = posActualSum s.rows := by
  induction rows with
  | nil =>
    intro m hm
    exact hm
  | cons row rows ih =>
    intro m hm
    rw [List.foldl_cons]
    exact ih _ (groupStep_spent hm row)

theorem initGroupMap_spent (groups : List CategoryGroup) :
    ∀ k s, initGroupMap groups k = some s → s.spent = posActualSum s.rows := by
  have hfold : ∀ (gs : List CategoryGroup)
      (base : BucketKey → Option GroupSection),
      (∀ k s, base k = some s → s.spent = posActualSum s.rows) →
      ∀ k s,
        (gs.foldl
          (fun m g => fun k =>
            if k = BucketKey.group g.id then
              some { key := String.mk (natRepr g.id), label := g.name
                     budgeted := 0, spent := 0, rows := [], color := g.color }
            else m k)
          base) k = some s → s.spent = posActualSum s.rows := by
    intro gs
    induction gs with
    | nil =>
      intro base hb
      exact hb
    | cons g gs ih =>
      intro base hb
      rw [List.foldl_cons]
      apply ih
      intro k s h
      by_cases hk : k = BucketKey.group g.id
      · rw [if_pos hk] at h
        injection h with h
        rw [← h]
        simp [posActualSum]
      · rw [if_neg hk] at h
        exact hb k s h
  intro k s h
  unfold initGroupMap at h
  by_cases hu : k = BucketKey.unassigned
  · rw [if_pos hu] at h
    injection h with h
    rw [← h]
    simp [posActualSum]
  · rw [if_neg hu] at h
    by_cases hi : k = BucketKey.income
    · rw [if_pos hi] at h
      injection h with h
      rw [← h]
      simp [posActualSum]
    · rw [if_neg hi] at h
      exact hfold groups (fun _ => none) (by intro k s h; cases h) k s h

theorem buildGroupSections_from_map {rows : List BudgetRow}
    {groups : List CategoryGroup} {s : GroupSection}
    (hs : s ∈ buildGroupSections rows groups) :
    ∃ k, (rows.foldl groupStep (initGroupMap groups)) k = some s := by
  unfold buildGroupSections at hs
  rcases List.mem_append.mp hs with h | h
  · rcases List.mem_append.mp h with h | h
    · -- income part
      refine ⟨BucketKey.income, ?_⟩
      cases hmk : (rows.foldl groupStep (initGroupMap groups))
          BucketKey.income with
      | none =>
        rw [hmk] at h
        exact absurd h (List.not_mem_nil s)
      | some s0 =>
        rw [hmk] at h
        have h' : s ∈ (if s0.rows ≠ [] then [s0] else []) := h
        by_cases hne : s0.rows = []
        · simp [hne] at h'
        · rw [if_pos hne] at h'
          rw [List.mem_singleton.mp h']
    · -- named groups
      obtain ⟨hs', -⟩ := List.mem_filter.mp h
      obtain ⟨g, -, hg⟩ := List.mem_filterMap.mp hs'
      exact ⟨BucketKey.group g.id, by rw [hg]⟩
  · -- unassigned part
    refine ⟨BucketKey.unassigned, ?_⟩
    cases hmk : (rows.foldl groupStep (initGroupMap groups))
        BucketKey.unassigned with
    | none =>
      rw [hmk] at h
      exact absurd h (List.not_mem_nil s)
    | some s0 =>
      rw [hmk] at h
      have h' : s ∈ (if s0.rows ≠ [] then [s0] else []) := h
      by_cases hne : s0.rows = []
      · simp [hne] at h'
      · rw [if_pos hne] at h'
        rw [List.mem_singleton.mp h']

theorem bucket_spent_eq_posActualSum {rows : List BudgetRow}
    {groups : List CategoryGroup} {s : GroupSection}
    (hs : s ∈ buildGroupSections rows groups) :
    s.spent = posActualSum s.rows := by
  obtain ⟨k, hk⟩ := buildGroupSections_from_map hs
  exact groupFold_spent rows (initGroupMap groups)
    (initGroupMap_spent groups) k s hk

/-! ## The flat spending total as a per-category sum -/

theorem flatTotals_go (cats : List Category) :
    ∀ (entries : List (Nat × Rat)) (acc : Rat × Rat),
      entries.foldl
        (fun acc e =>
          match catMapOf cats e.1 with
          | none => acc
          | some c =>
            match c.rule with
            | Rule.income => (acc.1 + e.2, acc.2)
            | Rule.spending => (acc.1, acc.2 + -e.2))
        acc
      = (acc.1 + (entries.map (entryIncomeVal cats)).sum,
         acc.2 + (entries.map (entrySpendVal cats)).sum) := by
  intro entries
  induction entries with
  | nil =>
    intro acc
    simp
  | cons e rest ih =>
    intro acc
    rw [List.foldl_cons]
    have hstep :
        (match catMapOf cats e.1 with
          | none => acc
          | some c =>
            match c.rule with
            | Rule.income => (acc.1 + e.2, acc.2)
            | Rule.spending => (acc.1, acc.2 + -e.2))
        = (acc.1 + entryIncomeVal cats e, acc.2 + entrySpendVal cats e) := by
      unfold entryIncomeVal entrySpendVal
      cases hc : catMapOf cats e.1 with
      | none => simp
      | some c =>
        cases hr : c.rule with
        | income => simp [hr]
        | spending => simp [hr]
    rw [hstep, ih]
    simp only [List.map_cons, List.sum_cons, add_assoc]

theorem flatTotals_eq (cats : List Category) (txs : List Transaction) :
    flatTotals cats txs
      = (((buildSpentMap cats txs).map (entryIncomeVal cats)).sum,
         ((buildSpentMap cats txs).map (entrySpendVal cats)).sum) := by
  unfold flatTotals
  rw [flatTotals_go cats (buildSpentMap cats txs) (0, 0)]
  simp

theorem keys_upsert (m : List (Nat × Rat)) (k : Nat) (v : Rat) :
    (upsertEntry m k v).map Prod.fst
      = if k ∈ m.map Prod.fst then m.map Prod.fst
        else m.map Prod.fst ++ [k] := by
  induction m with
  | nil => simp [upsertEntry]
  | cons e rest ih =>
    by_cases he : e.1 = k
    · simp [upsertEntry, he]
    · have hke : ¬ k = e.1 := fun h => he h.symm
      simp only [upsertEntry, if_neg he, List.map_cons, ih]
      by_cases hm : k ∈ rest.map Prod.fst
      · simp [hm, hke]
      · simp [hm, hke]

theorem nodup_keys_upsert {m : List (Nat × Rat)} (k : Nat) (v : Rat)
    (h : (m.map Prod.fst).Nodup) :
    ((upsertEntry m k v).map Prod.fst).Nodup := by
  rw [keys_upsert]
  by_cases hm : k ∈ m.map Prod.fst
  · rw [if_pos hm]
    exact h
  · rw [if_neg hm]
    simp [List.nodup_append, h, hm]

theorem mem_upsert {m : List (Nat × Rat)} {e : Nat × Rat} {k : Nat} {v : Rat}
    (h : e ∈ upsertEntry m k v) : e.1 = k ∨ e ∈ m := by
  induction m with
  | nil =>
    simp [upsertEntry] at h
    rw [h]
    exact Or.inl rfl
  | cons e0 rest ih =>
    by_cases he : e0.1 = k
    · rw [upsertEntry, if_pos he] at h
      rcases List.mem_cons.mp h with h | h
      · rw [h]
        exact Or.inl he
      · exact Or.inr (List.mem_cons_of_mem _ h)
    · rw [upsertEntry, if_neg he] at h
      rcases List.mem_cons.mp h with h | h
      · rw [h]
        exact Or.inr (List.mem_cons_self _ _)
      · rcases ih h with h | h
        · exact Or.inl h
        · exact Or.inr (List.mem_cons_of_mem _ h)

theorem buildSpentMap_fold_inv (cats : List Category)
    (P : (Nat × Rat) → Prop)
    (hP : ∀ m k v, (∀ e ∈ m, P e) → (catMapOf cats k).isSome = true →
        ∀ e ∈ upsertEntry m k v, P e) :
    ∀ (txs : List Transaction) (m : List (Nat × Rat)),
      (∀ e ∈ m, P e) →
      ∀ e ∈ txs.foldl
        (fun m tx =>
          match catMapOf cats tx.categoryId with
          | none => m
          | some _ =>
            upsertEntry m tx.categoryId
              (getSignedAmount tx.amount (tx.isIncome == 1)))
        m, P e := by
  intro txs
  induction txs with
  | nil =>
    intro m hm
    exact hm
  | cons tx txs ih =>
    intro m hm
    rw [List.foldl_cons]
    cases hc : catMapOf cats tx.categoryId with
    | none => exact ih m hm
    | some c0 =>
      apply ih
      exact hP m tx.categoryId _ hm (by rw [hc]; rfl)

theorem buildSpentMap_keys_nodup (cats : List Category)
    (txs : List Transaction) :
    ((buildSpentMap cats txs).map Prod.fst).Nodup := by
  unfold buildSpentMap
  have : ∀ (txs : List Transaction) (m : List (Nat × Rat)),
      (m.map Prod.fst).Nodup →
      ((txs.foldl
        (fun m tx =>
          match catMapOf cats tx.categoryId with
          | none => m
          | some _ =>
            upsertEntry m tx.categoryId
              (getSignedAmount tx.amount (tx.isIncome == 1)))
        m).map Prod.fst).Nodup := by
    intro txs
    induction txs with
    | nil =>
      intro m hm
      exact hm
    | cons tx txs ih =>
      intro m hm
      rw [List.foldl_cons]
      cases hc : catMapOf cats tx.categoryId with
      | none => exact ih m hm
      | some c0 => exact ih _ (nodup_keys_upsert _ _ hm)
  exact this txs [] (by simp)

theorem buildSpentMap_keys_resolvable (cats : List Category)
    (txs : List Transaction) :
    ∀ e ∈ buildSpentMap cats txs, (catMapOf cats e.1).isSome = true := by
  unfold buildSpentMap
  apply buildSpentMap_fold_inv cats
      (fun e => (catMapOf cats e.1).isSome = true)
  · intro m k v hm hk e he
    rcases mem_upsert he with h | h
    · rw [h]
      exact hk
    · exact hm e h
  · intro e he
    cases he

theorem lookupEntry_of_mem {m : List (Nat × Rat)} {e : Nat × Rat}
    (hnd : (m.map Prod.fst).Nodup) (he : e ∈ m) :
    lookupEntry m e.1 = some e.2 := by
  induction m with
  | nil => cases he
  | cons e0 rest ih =>
    rcases List.mem_cons.mp he with h | h
    · rw [h]
      simp [lookupEntry]
    · have h0 : ¬ e0.1 = e.1 := by
        intro hc
        have : e.1 ∈ rest.map Prod.fst := List.mem_map_of_mem Prod.fst h
        rw [List.map_cons, List.nodup_cons] at hnd
        exact hnd.1 (hc ▸ this)
      rw [lookupEntry, if_neg h0]
      exact ih (by
        rw [List.map_cons, List.nodup_cons] at hnd
        exact hnd.2) h

theorem lookupEntry_eq_none {m : List (Nat × Rat)} {k : Nat}
    (h : k ∉ m.map Prod.fst) : lookupEntry m k = none := by
  induction m with
  | nil => rfl
  | cons e0 rest ih =>
    rw [List.map_cons] at h
    have h1 : ¬ e0.1 = k := fun hc => h (hc ▸ List.mem_cons_self _ _)
    rw [lookupEntry, if_neg h1]
    exact ih (fun hc => h (List.mem_cons_of_mem _ hc))

theorem catMap_fold_some :
    ∀ (cats : List Category) (base : Nat → Option Category) (k : Nat)
      (c : Category),
      (cats.foldl (fun m c => fun q => if q = c.id then some c else m q)
        base) k = some c →
      (c ∈ cats ∧ c.id = k) ∨ base k = some c := by
  intro cats
  induction cats with
  | nil =>
    intro base k c h
    exact Or.inr h
  | cons c0 rest ih =>
    intro base k c h
    rw [List.foldl_cons] at h
    rcases ih _ k c h with h | h
    · exact Or.inl ⟨List.mem_cons_of_mem _ h.1, h.2⟩
    · by_cases hk : k = c0.id
      · rw [if_pos hk] at h
        injection h with h
        exact Or.inl ⟨List.mem_cons.mpr (Or.inl h.symm), by rw [← h, hk]⟩
      · rw [if_neg hk] at h
        exact Or.inr h

theorem catMap_fold_untouched :
    ∀ (cats : List Category) (base : Nat → Option Category) (k : Nat),
      (∀ c ∈ cats, c.id ≠ k) →
      (cats.foldl (fun m c => fun q => if q = c.id then some c else m q)
        base) k = base k := by
  intro cats
  induction cats with
  | nil =>
    intro base k _
    rfl
  | cons c0 rest ih =>
    intro base k hne
    rw [List.foldl_cons]
    rw [ih _ k (fun c hc => hne c (List.mem_cons_of_mem _ hc))]
    rw [if_neg (fun h => hne c0 (List.mem_cons_self _ _) h.symm)]

theorem catMap_fold_self :
    ∀ (cats : List Category) (base : Nat → Option Category) (c : Category),
      (cats.map (fun c => c.id)).Nodup → c ∈ cats →
      (cats.foldl (fun m c => fun q => if q = c.id then some c else m q)
        base) c.id = some c := by
  intro cats
  induction cats with
  | nil =>
    intro base c _ hc
    cases hc
  | cons c0 rest ih =>
    intro base c hnd hc
    rw [List.map_cons, List.nodup_cons] at hnd
    rw [List.foldl_cons]
    rcases List.mem_cons.mp hc with h | h
    · rw [catMap_fold_untouched rest _ c.id
        (fun c' hc' he => hnd.1 (by
          rw [← h, ← he]
          exact List.mem_map_of_mem _ hc'))]
      rw [h]
      simp
    · exact ih _ c hnd.2 h

theorem catMapOf_self_of_nodup {cats : List Category} {c : Category}
    (hnd : (cats.map (fun c => c.id)).Nodup) (hc : c ∈ cats) :
    catMapOf cats c.id = some c :=
  catMap_fold_self cats (fun _ => none) c hnd hc

theorem filter_map_sum {α : Type} (l : List α) (p : α → Bool) (f : α → Rat) :
    ((l.filter p).map f).sum
      = (l.map (fun x => if p x then f x else 0)).sum := by
  induction l with
  | nil => rfl
  | cons x xs ih =>
    rw [List.filter_cons]
    by_cases hp : p x = true
    · simp only [hp, if_pos, List.map_cons, List.sum_cons, ih, if_true]
    · simp only [hp, List.map_cons, List.sum_cons, if_false, ih,
        Bool.false_eq_true, zero_add]

theorem totalSpending_eq_sum_spendingCats (cats : List Category)
    (txs : List Transaction)
    (hnd : (cats.map (fun c => c.id)).Nodup) :
    totalSpendingOf cats txs
      = ((cats.filter (fun c => c.rule == Rule.spending)).map
          (fun c => -(rawNetOf cats txs c.id))).sum := by
  have hkeysnd := buildSpentMap_keys_nodup cats txs
  have h1 : totalSpendingOf cats txs
      = ((buildSpentMap cats txs).map (entrySpendVal cats)).sum := by
    unfold totalSpendingOf
    rw [flatTotals_eq]
  have h2 : (buildSpentMap cats txs).map (entrySpendVal cats)
      = (buildSpentMap cats txs).map
          (fun e => spendContribution cats txs e.1) := by
    apply List.map_congr_left
    intro e he
    unfold entrySpendVal spendContribution
    cases hc : catMapOf cats e.1 with
    | none => rfl
    | some c =>
      have : rawNetOf cats txs e.1 = e.2 := by
        unfold rawNetOf
        rw [lookupEntry_of_mem hkeysnd he]
        rfl
      cases hr : c.rule with
      | income => simp [hr]
      | spending => simp [hr, this]
  have h3 : ((buildSpentMap cats txs).map
        (fun e => spendContribution cats txs e.1)).sum
      = (((buildSpentMap cats txs).map Prod.fst).map
          (spendContribution cats txs)).sum := by
    rw [List.map_map]
    rfl
  have h4 : (((buildSpentMap cats txs).map Prod.fst).map
        (spendContribution cats txs)).sum
      = ((buildSpentMap cats txs).map Prod.fst).toFinset.sum
          (spendContribution cats txs) :=
    (List.sum_toFinset _ hkeysnd).symm
  have hsub : ((buildSpentMap cats txs).map Prod.fst).toFinset
      ⊆ (cats.map (fun c => c.id)).toFinset := by
    intro k hk
    rw [List.mem_toFinset] at hk ⊢
    obtain ⟨e, he, hek⟩ := List.mem_map.mp hk
    have hres := buildSpentMap_keys_resolvable cats txs e he
    cases hc : catMapOf cats e.1 with
    | none =>
      rw [hc] at hres
      cases hres
    | some c =>
      have := catMap_fold_some cats (fun _ => none) e.1 c hc
      rcases this with ⟨hmem, hid⟩ | h
      · rw [← hek, ← hid]
        exact List.mem_map_of_mem _ hmem
      · cases h
  have hvan : ∀ k ∈ (cats.map (fun c => c.id)).toFinset,
      k ∉ ((buildSpentMap cats txs).map Prod.fst).toFinset →
      spendContribution cats txs k = 0 := by
    intro k _ hk
    rw [List.mem_toFinset] at hk
    have hlk : lookupEntry (buildSpentMap cats txs) k = none :=
      lookupEntry_eq_none hk
    unfold spendContribution
    cases hc : catMapOf cats k with
    | none => rfl
    | some c =>
      cases hr : c.rule with
      | income => simp [hr]
      | spending =>
        simp only [hr]
        unfold rawNetOf
        rw [hlk]
        simp
  have h5 : ((buildSpentMap cats txs).map Prod.fst).toFinset.sum
        (spendContribution cats txs)
      = (cats.map (fun c => c.id)).toFinset.sum
          (spendContribution cats txs) :=
    Finset.sum_subset hsub hvan
  have h6 : (cats.map (fun c => c.id)).toFinset.sum
        (spendContribution cats txs)
      = ((cats.map (fun c => c.id)).map (spendContribution cats txs)).sum :=
    List.sum_toFinset _ hnd
  have h7 : ((cats.map (fun c => c.id)).map
        (spendContribution cats txs)).sum
      = (cats.map (fun c => spendContribution cats txs c.id)).sum := by
    rw [List.map_map]
    rfl
  have h8 : cats.map (fun c => spendContribution cats txs c.id)
      = cats.map (fun c =>
          if c.rule == Rule.spending then -(rawNetOf cats txs c.id) else 0) := by
    apply List.map_congr_left
    intro c hc
    unfold spendContribution
    rw [catMapOf_self_of_nodup hnd hc]
    cases hr : c.rule with
    | income => simp [hr]
    | spending => simp [hr]
  rw [h1, h2, h3, h4, h5, h6, h7, h8,
    ← filter_map_sum cats (fun c => c.rule == Rule.spending)
      (fun c => -(rawNetOf cats txs c.id))]

/-- C4: every grouped-report bucket's `spent` total sums only the positive
per-row actual values (profit rows contribute nothing), while the flat
report's global spending total sums `-rawNet` over all spending categories
so a profit category reduces it; with two spending categories in one group
whose actuals are −20 and 50, the bucket's spent total is 50 but their
contribution to the global spending total is 30. -/
theorem claim_C4 (rows : List BudgetRow) (groups : List CategoryGroup)
    (cats : List Category) (txs : List Transaction)
    (hnd : (cats.map (fun c => c.id)).Nodup) :
    (∀ s ∈ buildGroupSections rows groups, s.spent = posActualSum s.rows)
    ∧ totalSpendingOf cats txs
        = ((cats.filter (fun c => c.rule == Rule.spending)).map
            (fun c => -(rawNetOf cats txs c.id))).sum
    ∧ (buildGroupSections
        (budgetRowsOf exampleProfitCats exampleProfitTxs [])
        exampleProfitGroups).map (fun s => s.spent) = [50]
    ∧ totalSpendingOf exampleProfitCats exampleProfitTxs = 30 := by
  refine ⟨fun s hs => bucket_spent_eq_posActualSum hs,
    totalSpending_eq_sum_spendingCats cats txs hnd, ?_, ?_⟩
  · norm_num +decide [buildGroupSections, budgetRowsOf, exampleProfitCats,
      exampleProfitTxs, exampleProfitGroups, groupStep, updateBucket,
      addRowToSection, initGroupMap, rawNetOf, buildSpentMap, catMapOf,
      upsertEntry, getSignedAmount, lookupEntry, budgetMapOf,
      natRepr, natReprGo, digitChar]
  · norm_num [totalSpendingOf, flatTotals, buildSpentMap, exampleProfitCats,
      exampleProfitTxs, catMapOf, upsertEntry, getSignedAmount]

theorem claim_C4_witness :
    (exampleProfitCats.map (fun c => c.id)).Nodup
    ∧ totalSpendingOf exampleProfitCats exampleProfitTxs
        = ((exampleProfitCats.filter (fun c => c.rule == Rule.spending)).map
            (fun c => -(rawNetOf exampleProfitCats exampleProfitTxs c.id))).sum :=
  ⟨by decide,
    (claim_C4 [] [] exampleProfitCats exampleProfitTxs (by decide)).2.1⟩

/-! ## The flat-report sort comparator -/

theorem rowLe_ff {a b : CategoryBudgetData}
    (h1 : hasBudgetOpt a.budgetAmount = false)
    (h2 : hasBudgetOpt b.budgetAmount = false) :
    rowLe a b = decide (b.spent ≤ a.spent) := by
  unfold rowLe
  rw [h1, h2]

theorem rowLe_tf {a b : CategoryBudgetData}
    (h1 : hasBudgetOpt a.budgetAmount = true)
    (h2 : hasBudgetOpt b.budgetAmount = false) :
    rowLe a b = true := by
  unfold rowLe
  rw [h1, h2]

theorem rowLe_ft {a b : CategoryBudgetData}
    (h1 : hasBudgetOpt a.budgetAmount = false)
    (h2 : hasBudgetOpt b.budgetAmount = true) :
    rowLe a b = false := by
  unfold rowLe
  rw [h1, h2]

theorem rowLe_tt {a b : CategoryBudgetData}
    (h1 : hasBudgetOpt a.budgetAmount = true)
    (h2 : hasBudgetOpt b.budgetAmount = true) :
    rowLe a b
      = if decide (100 < a.pctUsed) ≠ decide (100 < b.pctUsed)
        then decide (100 < a.pctUsed) else decide (b.pctUsed ≤ a.pctUsed) := by
  unfold rowLe
  rw [h1, h2]

theorem rowLe_total (a b : CategoryBudgetData) :
    rowLe a b = true ∨ rowLe b a = true := by
  cases ha : hasBudgetOpt a.budgetAmount <;>
    cases hb : hasBudgetOpt b.budgetAmount
  · rw [rowLe_ff ha hb, rowLe_ff hb ha]
    rcases le_total b.spent a.spent with h | h
    · exact Or.inl (by simp [h])
    · exact Or.inr (by simp [h])
  · rw [rowLe_tf hb ha]
    exact Or.inr rfl
  · rw [rowLe_tf ha hb]
    exact Or.inl rfl
  · rw [rowLe_tt ha hb, rowLe_tt hb ha]
    by_cases hA : 100 < a.pctUsed <;> by_cases hB : 100 < b.pctUsed
    · rcases le_total b.pctUsed a.pctUsed with h | h
      · exact Or.inl (by simp [hA, hB, h])
      · exact Or.inr (by simp [hA, hB, h])
    · exact Or.inl (by simp [hA, hB])
    · exact Or.inr (by simp [hA, hB])
    · rcases le_total b.pctUsed a.pctUsed with h | h
      · exact Or.inl (by simp [hA, hB, h])
      · exact Or.inr (by simp [hA, hB, h])

theorem rowLe_trans {a b c : CategoryBudgetData} (h₁ : rowLe a b = true)
    (h₂ : rowLe b c = true) : rowLe a c = true := by
  cases ha : hasBudgetOpt a.budgetAmount <;>
    cases hb : hasBudgetOpt b.budgetAmount <;>
      cases hc : hasBudgetOpt c.budgetAmount
  · -- none budgeted: transitivity of spent ≥
    rw [rowLe_ff ha hb] at h₁
    rw [rowLe_ff hb hc] at h₂
    rw [rowLe_ff ha hc]
    simp only [decide_eq_true_eq] at h₁ h₂ ⊢
    exact le_trans h₂ h₁
  · rw [rowLe_ft hb hc] at h₂
    cases h₂
  · rw [rowLe_ft ha hb] at h₁
    cases h₁
  · rw [rowLe_ft ha hb] at h₁
    cases h₁
  · exact rowLe_tf ha hc
  · rw [rowLe_ft hb hc] at h₂
    cases h₂
  · exact rowLe_tf ha hc
  · -- all budgeted: lexicographic on (over, pctUsed)
    rw [rowLe_tt ha hb] at h₁
    rw [rowLe_tt hb hc] at h₂
    rw [rowLe_tt ha hc]
    by_cases hA : 100 < a.pctUsed <;> by_cases hB : 100 < b.pctUsed <;>
      by_cases hC : 100 < c.pctUsed <;>
        simp [hA, hB, hC] at h₁ h₂ ⊢
    · exact le_trans h₂ h₁
    · exact le_trans h₂ h₁

theorem rowLe_imp_specSortLe {a b : CategoryBudgetData}
    (h : rowLe a b = true) : specSortLe a b := by
  unfold specSortLe
  cases ha : hasBudgetOpt a.budgetAmount <;>
    cases hb : hasBudgetOpt b.budgetAmount
  · rw [rowLe_ff ha hb] at h
    simp only [decide_eq_true_eq] at h
    exact Or.inr (Or.inr ⟨rfl, rfl, h⟩)
  · rw [rowLe_ft ha hb] at h
    cases h
  · exact Or.inl ⟨rfl, rfl⟩
  · rw [rowLe_tt ha hb] at h
    refine Or.inr (Or.inl ⟨rfl, rfl, ?_⟩)
    by_cases hA : 100 < a.pctUsed <;> by_cases hB : 100 < b.pctUsed <;>
      simp [hA, hB] at h ⊢
    · exact h
    · exact h

instance : IsTotal CategoryBudgetData (fun a b => rowLe a b = true) :=
  ⟨rowLe_total⟩

instance : IsTrans CategoryBudgetData (fun a b => rowLe a b = true) :=
  ⟨fun _ _ _ => rowLe_trans⟩

/-- C1: the flat-report sort returns a permutation of its input ordered by
the spec's multi-key precedence (budgeted before unbudgeted; over-budget
before not-over among budgeted, then higher `pctUsed` first; higher `spent`
first among unbudgeted); on the spec's example — A (budget 100, spent 120,
pct 120), B (budget 50, spent 40, pct 80), C (no budget, spent 30) — the
report order is [A, B, C]. -/
theorem claim_C1 (l : List CategoryBudgetData) :
    (sortSpendingCats l).Perm l
    ∧ (sortSpendingCats l).Pairwise specSortLe
    ∧ (flatSpendingReport exampleSortCats exampleSortTxs
          exampleSortBudgets).map
        (fun r => (r.id, r.budgetAmount, r.spent, r.pctUsed))
      = [(1, some 100, 120, 120), (2, some 50, 40, 80), (3, none, 30, 0)] := by
  refine ⟨List.perm_insertionSort _ l, ?_, ?_⟩
  · exact (List.sorted_insertionSort (fun a b => rowLe a b = true) l).imp
      (fun h => rowLe_imp_specSortLe h)
  · norm_num +decide [flatSpendingReport, sortSpendingCats,
      List.insertionSort, List.orderedInsert, spendingCatsOf,
      mkCategoryBudgetData, excludedRow, exampleSortCats, exampleSortTxs,
      exampleSortBudgets, rowLe, hasBudgetOpt, rawNetOf, buildSpentMap,
      catMapOf, upsertEntry, lookupEntry, budgetMapOf, getSignedAmount]

/-! ## Decimal digits: formatting and parsing -/

theorem digitChar_toNat {d : Nat} (h : d ≤ 9) :
    (digitChar d).toNat = 48 + d := by
  interval_cases d <;> decide

theorem natReprGo_congr :
    ∀ (n f₁ f₂ : Nat) (acc : List Char), n < f₁ → n < f₂ →
      natReprGo f₁ n acc = natReprGo f₂ n acc := by
  intro n
  induction n using Nat.strong_induction_on with
  | _ n ih =>
    intro f₁ f₂ acc h₁ h₂
    cases f₁ with
    | zero => omega
    | succ fa =>
      cases f₂ with
      | zero => omega
      | succ fb =>
        by_cases hn : n < 10
        · simp [natReprGo, hn]
        · simp only [natReprGo, hn, if_false]
          exact ih (n / 10) (Nat.div_lt_self (by omega) (by omega))
            fa fb _ (by omega) (by omega)

theorem natReprGo_acc :
    ∀ (n f : Nat) (acc : List Char), n < f →
      natReprGo f n acc = natReprGo f n [] ++ acc := by
  intro n
  induction n using Nat.strong_induction_on with
  | _ n ih =>
    intro f acc hf
    cases f with
    | zero => omega
    | succ fa =>
      by_cases hn : n < 10
      · simp [natReprGo, hn]
      · simp only [natReprGo, hn, if_false]
        have hlt : n / 10 < n := Nat.div_lt_self (by omega) (by omega)
        by_cases hfa : n / 10 < fa
        · rw [ih (n / 10) hlt fa _ hfa, ih (n / 10) hlt fa [digitChar (n % 10)] hfa]
          simp
        · -- fa ≤ n / 10 < n < fa + 1 forces n / 10 = fa, still < n ≤ fa
          have : n / 10 < fa := by
            have h1 : n ≤ fa := by omega
            have h2 : n / 10 < n := hlt
            omega
          exact absurd this hfa

theorem natRepr_lt10 {n : Nat} (h : n < 10) : natRepr n = [digitChar n] := by
  simp [natRepr, natReprGo, h]

theorem natRepr_ge10 {n : Nat} (h : ¬ n < 10) :
    natRepr n = natRepr (n / 10) ++ [digitChar (n % 10)] := by
  have hlt : n / 10 < n := Nat.div_lt_self (by omega) (by omega)
  unfold natRepr
  conv =>
    lhs
    rw [show n + 1 = Nat.succ n from rfl]
  rw [show natReprGo (Nat.succ n) n [] =
      (if n < 10 then digitChar n :: []
       else natReprGo n (n / 10) (digitChar (n % 10) :: [])) from rfl]
  rw [if_neg h]
  rw [natReprGo_acc (n / 10) n _ hlt]
  rw [natReprGo_congr (n / 10) n (n / 10 + 1) [] hlt (by omega)]

theorem natRepr_digits :
    ∀ (n : Nat), ∀ c ∈ natRepr n, 48 ≤ c.toNat ∧ c.toNat ≤ 57 := by
  intro n
  induction n using Nat.strong_induction_on with
  | _ n ih =>
    intro c hc
    by_cases hn : n < 10
    · rw [natRepr_lt10 hn] at hc
      rcases List.mem_singleton.mp hc with h
      rw [h, digitChar_toNat (by omega)]
      omega
    · rw [natRepr_ge10 hn] at hc
      rcases List.mem_append.mp hc with h | h
      · exact ih (n / 10) (Nat.div_lt_self (by omega) (by omega)) c h
      · rcases List.mem_singleton.mp h with h
        rw [h, digitChar_toNat (by omega)]
        have : n % 10 ≤ 9 := by omega
        omega

theorem natRepr_ne_nil (n : Nat) : natRepr n ≠ [] := by
  by_cases hn : n < 10
  · rw [natRepr_lt10 hn]
    simp
  · rw [natRepr_ge10 hn]
    simp

theorem digitVal_digitChar {d : Nat} (h : d ≤ 9) :
    digitVal (digitChar d) = some d := by
  unfold digitVal
  rw [digitChar_toNat h]
  rw [if_pos (by omega)]
  congr 1
  omega

theorem parseDigits_append (as : List Char) (c : Char) :
    parseDigits (as ++ [c])
      = match parseDigits as, digitVal c with
        | some n, some d => some (n * 10 + d)
        | _, _ => none := by
  unfold parseDigits
  rw [List.foldl_append]
  rfl

theorem parseDigits_natRepr : ∀ n : Nat, parseDigits (natRepr n) = some n := by
  intro n
  induction n using Nat.strong_induction_on with
  | _ n ih =>
    by_cases hn : n < 10
    · rw [natRepr_lt10 hn]
      show parseDigits ([] ++ [digitChar n]) = some n
      rw [parseDigits_append]
      have h1 : parseDigits [] = some 0 := rfl
      rw [h1, digitVal_digitChar (by omega)]
      simp
    · rw [natRepr_ge10 hn]
      rw [parseDigits_append]
      rw [ih (n / 10) (Nat.div_lt_self (by omega) (by omega))]
      rw [digitVal_digitChar (by omega)]
      show some (n / 10 * 10 + n % 10) = some n
      congr 1
      omega

theorem natRepr_injective {a b : Nat} (h : natRepr a = natRepr b) : a = b := by
  have ha := parseDigits_natRepr a
  have hb := parseDigits_natRepr b
  rw [h, hb] at ha
  injection ha with ha
  exact ha.symm

/-! ## Grouped-report bucket structure -/

theorem updateBucket_isSome (m : BucketKey → Option GroupSection)
    (k' : BucketKey) (row : BudgetRow) (q : BucketKey) :
    ((updateBucket m k' row) q).isSome = (m q).isSome := by
  unfold updateBucket
  by_cases hq : q = k'
  · rw [if_pos hq, hq]
    cases m k' <;> rfl
  · rw [if_neg hq]

theorem initGroupMap_isSome (groups : List CategoryGroup) (k : BucketKey) :
    (((initGroupMap groups) k).isSome = true)
      ↔ (k = BucketKey.income ∨ k = BucketKey.unassigned
          ∨ ∃ g ∈ groups, k = BucketKey.group g.id) := by
  have hfold : ∀ (gs : List CategoryGroup)
      (base : BucketKey → Option GroupSection) (k : BucketKey),
      (((gs.foldl
        (fun m g => fun k =>
          if k = BucketKey.group g.id then
            some { key := String.mk (natRepr g.id), label := g.name
                   budgeted := 0, spent := 0, rows := [], color := g.color }
          else m k)
        base) k).isSome = true)
      ↔ ((∃ g ∈ gs, k = BucketKey.group g.id) ∨ (base k).isSome = true) := by
    intro gs
    induction gs with
    | nil =>
      intro base k
      simp
    | cons g rest ih =>
      intro base k
      rw [List.foldl_cons, ih]
      by_cases hk : k = BucketKey.group g.id
      · simp [hk]
      · simp only [hk, if_neg hk]
        constructor
        · rintro (⟨g', hg', he⟩ | hb)
          · exact Or.inl ⟨g', List.mem_cons_of_mem _ hg', he⟩
          · exact Or.inr hb
        · rintro (⟨g', hg', he⟩ | hb)
          · rcases List.mem_cons.mp hg' with h | h
            · exact absurd (h ▸ he) hk
            · exact Or.inl ⟨g', h, he⟩
          · exact Or.inr hb
  unfold initGroupMap
  by_cases hu : k = BucketKey.unassigned
  · simp [hu]
  · rw [if_neg hu]
    by_cases hi : k = BucketKey.income
    · simp [hi]
    · rw [if_neg hi]
      rw [hfold groups (fun _ => none) k]
      simp [hi, hu]

theorem initGroupMap_key_rows (groups : List CategoryGroup) :
    ∀ k s, initGroupMap groups k = some s →
      s.key = bucketKeyString k ∧ s.rows = [] := by
  have hfold : ∀ (gs : List CategoryGroup)
      (base : BucketKey → Option GroupSection),
      (∀ k s, base k = some s → s.key = bucketKeyString k ∧ s.rows = []) →
      ∀ k s,
        (gs.foldl
          (fun m g => fun k =>
            if k = BucketKey.group g.id then
              some { key := String.mk (natRepr g.id), label := g.name
                     budgeted := 0, spent := 0, rows := [], color := g.color }
            else m k)
          base) k = some s →
        s.key = bucketKeyString k ∧ s.rows = [] := by
    intro gs
    induction gs with
    | nil =>
      intro base hb
      exact hb
    | cons g rest ih =>
      intro base hb
      rw [List.foldl_cons]
      apply ih
      intro k s h
      by_cases hk : k = BucketKey.group g.id
      · rw [if_pos hk] at h
        injection h with h
        rw [← h, hk]
        exact ⟨rfl, rfl⟩
      · rw [if_neg hk] at h
        exact hb k s h
  intro k s h
  unfold initGroupMap at h
  by_cases hu : k = BucketKey.unassigned
  · rw [if_pos hu] at h
    injection h with h
    rw [← h, hu]
    exact ⟨rfl, rfl⟩
  · rw [if_neg hu] at h
    by_cases hi : k = BucketKey.income
    · rw [if_pos hi] at h
      injection h with h
      rw [← h, hi]
      exact ⟨rfl, rfl⟩
    · rw [if_neg hi] at h
      exact hfold groups (fun _ => none) (by intro k s h; cases h) k s h

theorem groupStep_eq_update {groups : List CategoryGroup}
    {m : BucketKey → Option GroupSection}
    (hdom : ∀ k, ((m k).isSome = true)
      ↔ (k = BucketKey.income ∨ k = BucketKey.unassigned
          ∨ ∃ g ∈ groups, k = BucketKey.group g.id))
    (row : BudgetRow) :
    groupStep m row = updateBucket m (resolvedKey groups row) row := by
  unfold groupStep resolvedKey
  by_cases hr : row.rule = Rule.income
  · rw [if_pos hr, if_pos hr]
  · rw [if_neg hr, if_neg hr]
    cases hg : row.groupId with
    | none => simp [ite_self]
    | some g =>
      have : (m (BucketKey.group g)).isSome
          = groups.any (fun h => h.id == g) := by
        by_cases hmem : ∃ g' ∈ groups, g = g'.id
        · have h1 : (m (BucketKey.group g)).isSome = true := by
            rw [hdom]
            refine Or.inr (Or.inr ?_)
            obtain ⟨g', hg', he⟩ := hmem
            exact ⟨g', hg', by rw [he]⟩
          have h2 : groups.any (fun h => h.id == g) = true := by
            rw [List.any_eq_true]
            obtain ⟨g', hg', he⟩ := hmem
            exact ⟨g', hg', by simp [he]⟩
          rw [h1, h2]
        · have h1 : ¬ (m (BucketKey.group g)).isSome = true := by
            rw [hdom]
            rintro (h | h | ⟨g', hg', he⟩)
            · cases h
            · cases h
            · injection he with he
              exact hmem ⟨g', hg', he⟩
          have h2 : ¬ groups.any (fun h => h.id == g) = true := by
            rw [List.any_eq_true]
            rintro ⟨g', hg', he⟩
            simp at he
            exact hmem ⟨g', hg', he.symm⟩
          rw [Bool.not_eq_true] at h1 h2
          rw [h1, h2]
      simp [this]

theorem updateBucket_key_rows {groups : List CategoryGroup}
    {m : BucketKey → Option GroupSection} {processed : List BudgetRow}
    (hkr : ∀ k s, m k = some s → s.key = bucketKeyString k
      ∧ s.rows = processed.filter (fun r => decide (resolvedKey groups r = k)))
    (row : BudgetRow) :
    ∀ k s, updateBucket m (resolvedKey groups row) row k = some s →
      s.key = bucketKeyString k
      ∧ s.rows = (processed ++ [row]).filter
          (fun r => decide (resolvedKey groups r = k)) := by
  intro k s h
  unfold updateBucket at h
  by_cases hk : k = resolvedKey groups row
  · rw [if_pos hk] at h
    cases hmk : m (resolvedKey groups row) with
    | none =>
      rw [hmk] at h
      cases h
    | some s0 =>
      rw [hmk, Option.map_some'] at h
      injection h with h
      obtain ⟨hkey, hrows⟩ := hkr _ s0 hmk
      rw [← h]
      constructor
      · rw [hk]
        exact hkey
      · show s0.rows ++ [row] = _
        rw [hrows, hk, List.filter_append]
        simp
  · rw [if_neg hk] at h
    obtain ⟨hkey, hrows⟩ := hkr k s h
    refine ⟨hkey, ?_⟩
    rw [List.filter_append]
    simp only [List.filter_cons, List.filter_nil]
    rw [if_neg (by
      simp only [decide_eq_true_eq]
      exact fun hc => hk hc.symm)]
    rw [hrows]
    simp

theorem groupFold_inv (groups : List CategoryGroup) :
    ∀ (rows : List BudgetRow) (m : BucketKey → Option GroupSection)
      (processed : List BudgetRow),
      (∀ k, ((m k).isSome = true)
        ↔ (k = BucketKey.income ∨ k = BucketKey.unassigned
            ∨ ∃ g ∈ groups, k = BucketKey.group g.id)) →
      (∀ k s, m k = some s → s.key = bucketKeyString k
        ∧ s.rows = processed.filter
            (fun r => decide (resolvedKey groups r = k))) →
      (∀ k, (((rows.foldl groupStep m) k).isSome = true)
        ↔ (k = BucketKey.income ∨ k = BucketKey.unassigned
            ∨ ∃ g ∈ groups, k = BucketKey.group g.id))
      ∧ (∀ k s, (rows.foldl groupStep m) k = some s →
          s.key = bucketKeyString k
          ∧ s.rows = (processed ++ rows).filter
              (fun r => decide (resolvedKey groups r = k))) := by
  intro rows
  induction rows with
  | nil =>
    intro m processed hdom hkr
    refine ⟨hdom, ?_⟩
    intro k s h
    simpa using hkr k s h
  | cons row rows ih =>
    intro m processed hdom hkr
    rw [List.foldl_cons, groupStep_eq_update hdom row]
    have hdom' : ∀ k,
        (((updateBucket m (resolvedKey groups row) row k).isSome = true)
          ↔ (k = BucketKey.income ∨ k = BucketKey.unassigned
              ∨ ∃ g ∈ groups, k = BucketKey.group g.id)) := by
      intro k
      rw [updateBucket_isSome]
      exact hdom k
    obtain ⟨hd, hk⟩ := ih (updateBucket m (resolvedKey groups row) row)
      (processed ++ [row]) hdom' (updateBucket_key_rows hkr row)
    refine ⟨hd, ?_⟩
    intro k s h
    obtain ⟨hkey, hrows⟩ := hk k s h
    refine ⟨hkey, ?_⟩
    rw [hrows]
    congr 1
    simp

theorem groupMap_final (rows : List BudgetRow) (groups : List CategoryGroup) :
    (∀ k, (((rows.foldl groupStep (initGroupMap groups)) k).isSome = true)
      ↔ (k = BucketKey.income ∨ k = BucketKey.unassigned
          ∨ ∃ g ∈ groups, k = BucketKey.group g.id))
    ∧ (∀ k s, (rows.foldl groupStep (initGroupMap groups)) k = some s →
        s.key = bucketKeyString k
        ∧ s.rows = rows.filter
            (fun r => decide (resolvedKey groups r = k))) := by
  obtain ⟨hd, hk⟩ := groupFold_inv groups rows (initGroupMap groups) []
    (initGroupMap_isSome groups)
    (by
      intro k s h
      obtain ⟨h1, h2⟩ := initGroupMap_key_rows groups k s h
      exact ⟨h1, by rw [h2]; rfl⟩)
  refine ⟨hd, ?_⟩
  intro k s h
  obtain ⟨h1, h2⟩ := hk k s h
  exact ⟨h1, by rw [h2]; simp⟩

theorem mkNatRepr_ne_income (g : Nat) : String.mk (natRepr g) ≠ "income" := by
  intro h
  have hd : natRepr g = "income".data := congrArg String.data h
  have hmem : 'i' ∈ natRepr g := by
    rw [hd]
    decide
  have h57 := (natRepr_digits g 'i' hmem).2
  have hi : ('i').toNat = 105 := by decide
  omega

theorem mkNatRepr_ne_unassigned (g : Nat) :
    String.mk (natRepr g) ≠ "unassigned" := by
  intro h
  have hd : natRepr g = "unassigned".data := congrArg String.data h
  have hmem : 'u' ∈ natRepr g := by
    rw [hd]
    decide
  have h57 := (natRepr_digits g 'u' hmem).2
  have hu : ('u').toNat = 117 := by decide
  omega

theorem bucketKeyString_eq_income {k : BucketKey}
    (h : bucketKeyString k = "income") : k = BucketKey.income := by
  cases k with
  | income => rfl
  | unassigned => exact absurd h (by decide)
  | group g => exact absurd h (mkNatRepr_ne_income g)

theorem bucketKeyString_eq_unassigned {k : BucketKey}
    (h : bucketKeyString k = "unassigned") : k = BucketKey.unassigned := by
  cases k with
  | income => exact absurd h (by decide)
  | unassigned => rfl
  | group g => exact absurd h (mkNatRepr_ne_unassigned g)

theorem bucketKeyString_eq_group {k : BucketKey} {gid : Nat}
    (h : bucketKeyString k = String.mk (natRepr gid)) :
    k = BucketKey.group gid := by
  cases k with
  | income => exact absurd h.symm (mkNatRepr_ne_income gid)
  | unassigned => exact absurd h.symm (mkNatRepr_ne_unassigned gid)
  | group g =>
    have : natRepr g = natRepr gid := congrArg String.data h
    rw [natRepr_injective this]

theorem resolvedKey_eq_income_iff (groups : List CategoryGroup)
    (r : BudgetRow) :
    resolvedKey groups r = BucketKey.income ↔ r.rule = Rule.income := by
  unfold resolvedKey
  by_cases hr : r.rule = Rule.income
  · simp [hr]
  · simp only [hr, if_neg hr, iff_false]
    cases hg : r.groupId with
    | none => simp
    | some g =>
      by_cases ha : groups.any (fun h => h.id == g) = true
      · simp [ha]
      · simp [ha]

theorem buildGroupSections_mem_strong {rows : List BudgetRow}
    {groups : List CategoryGroup} {s : GroupSection}
    (hs : s ∈ buildGroupSections rows groups) :
    ∃ k, (rows.foldl groupStep (initGroupMap groups)) k = some s
      ∧ s.rows ≠ [] := by
  unfold buildGroupSections at hs
  rcases List.mem_append.mp hs with h | h
  · rcases List.mem_append.mp h with h | h
    · refine ⟨BucketKey.income, ?_⟩
      cases hmk : (rows.foldl groupStep (initGroupMap groups))
          BucketKey.income with
      | none =>
        rw [hmk] at h
        exact absurd h (List.not_mem_nil s)
      | some s0 =>
        rw [hmk] at h
        have h' : s ∈ (if s0.rows ≠ [] then [s0] else []) := h
        by_cases hne : s0.rows = []
        · simp [hne] at h'
        · rw [if_pos hne] at h'
          rw [List.mem_singleton.mp h']
          exact ⟨rfl, hne⟩
    · obtain ⟨hs', hp⟩ := List.mem_filter.mp h
      obtain ⟨g, -, hg⟩ := List.mem_filterMap.mp hs'
      refine ⟨BucketKey.group g.id, by rw [hg], ?_⟩
      simpa using hp
  · refine ⟨BucketKey.unassigned, ?_⟩
    cases hmk : (rows.foldl groupStep (initGroupMap groups))
        BucketKey.unassigned with
    | none =>
      rw [hmk] at h
      exact absurd h (List.not_mem_nil s)
    | some s0 =>
      rw [hmk] at h
      have h' : s ∈ (if s0.rows ≠ [] then [s0] else []) := h
      by_cases hne : s0.rows = []
      · simp [hne] at h'
      · rw [if_pos hne] at h'
        rw [List.mem_singleton.mp h']
        exact ⟨rfl, hne⟩

theorem filterMap_key_sublist :
    ∀ (l : List CategoryGroup) (f : CategoryGroup → Option GroupSection),
      (∀ g s, f g = some s → s.key = String.mk (natRepr g.id)) →
      ((l.filterMap f).map (fun s => s.key)).Sublist
        (l.map (fun g => String.mk (natRepr g.id))) := by
  intro l
  induction l with
  | nil =>
    intro f _
    simp
  | cons g rest ih =>
    intro f hf
    rw [List.filterMap_cons]
    cases hg : f g with
    | none =>
      exact List.Sublist.cons _ (ih f hf)
    | some s =>
      rw [List.map_cons, List.map_cons, hf g s hg]
      exact List.Sublist.cons₂ _ (ih f hf)

instance : IsTotal CategoryGroup groupOrder :=
  ⟨by
    intro g h
    unfold groupOrder
    omega⟩

instance : IsTrans CategoryGroup groupOrder :=
  ⟨by
    intro a b c h₁ h₂
    unfold groupOrder at h₁ h₂ ⊢
    omega⟩

theorem income_section_mem {rows : List BudgetRow}
    {groups : List CategoryGroup} {s : GroupSection}
    (h : (rows.foldl groupStep (initGroupMap groups)) BucketKey.income
      = some s) (hne : s.rows ≠ []) :
    s ∈ buildGroupSections rows groups
    ∧ (buildGroupSections rows groups).head? = some s := by
  unfold buildGroupSections
  simp only [h]
  rw [if_pos hne]
  constructor
  · exact List.mem_append.mpr (Or.inl (List.mem_append.mpr
      (Or.inl (List.mem_singleton.mpr rfl))))
  · rfl

theorem group_section_mem {rows : List BudgetRow}
    {groups : List CategoryGroup} {g : CategoryGroup} {s : GroupSection}
    (hg : g ∈ groups)
    (h : (rows.foldl groupStep (initGroupMap groups))
      (BucketKey.group g.id) = some s) (hne : s.rows ≠ []) :
    s ∈ buildGroupSections rows groups := by
  unfold buildGroupSections
  apply List.mem_append.mpr
  refine Or.inl (List.mem_append.mpr (Or.inr ?_))
  apply List.mem_filter.mpr
  refine ⟨List.mem_filterMap.mpr ⟨g, hg, h⟩, by simpa using hne⟩

/-- The claim's presence condition fails on the code: the budget screen
builds a `BudgetRow` for every category, so a group's bucket is present as
soon as the group has any member category at all.  Here the single member
category has no transactions (`actual = 0`) and no budget, yet the group's
bucket is produced. -/
theorem claim_C5_counterexample :
    (∀ r ∈ budgetRowsOf exampleIdleCats [] [],
      r.actual = 0 ∧ r.budgetAmount = none)
    ∧ (buildGroupSections (budgetRowsOf exampleIdleCats [] [])
        (getCategoryGroups exampleIdleGroups)).map (fun s => s.key)
      = [String.mk (natRepr 1)] := by
  constructor
  · intro r hr
    norm_num [budgetRowsOf, exampleIdleCats, rawNetOf, buildSpentMap,
      lookupEntry, budgetMapOf] at hr
    rw [hr]
    norm_num
  · norm_num +decide [buildGroupSections, budgetRowsOf, exampleIdleCats,
      exampleIdleGroups, getCategoryGroups, List.insertionSort,
      List.orderedInsert, groupStep, updateBucket, addRowToSection,
      initGroupMap, rawNetOf, buildSpentMap, catMapOf, upsertEntry,
      lookupEntry, budgetMapOf]

/-- C5, amended: in the grouped report built over `getCategoryGroups`, the
Income bucket is present if and only if some income-rule row exists (the
budget screen emits a row for every category, so presence does not require
activity or a budget), and it always sorts first; a group's bucket is
present if and only if at least one row resolves to that group, and the
named buckets appear in the order of `getCategoryGroups` (sorted by the
stored `sortOrder`); the Unassigned bucket comes after every named bucket,
last. -/
theorem claim_C5_amended (rows : List BudgetRow) (gs : List CategoryGroup) :
    ((∃ s ∈ buildGroupSections rows (getCategoryGroups gs),
        s.key = "income") ↔ ∃ r ∈ rows, r.rule = Rule.income)
    ∧ ((∃ r ∈ rows, r.rule = Rule.income) →
        ∃ s, (buildGroupSections rows (getCategoryGroups gs)).head? = some s
          ∧ s.key = "income")
    ∧ (∀ g ∈ getCategoryGroups gs,
        ((∃ s ∈ buildGroupSections rows (getCategoryGroups gs),
            s.key = String.mk (natRepr g.id))
          ↔ ∃ r ∈ rows,
              resolvedKey (getCategoryGroups gs) r = BucketKey.group g.id))
    ∧ (getCategoryGroups gs).Pairwise groupOrder
    ∧ (∃ ip named up,
        buildGroupSections rows (getCategoryGroups gs) = ip ++ named ++ up
        ∧ (∀ s ∈ ip, s.key = "income") ∧ ip.length ≤ 1
        ∧ (named.map (fun s => s.key)).Sublist
            ((getCategoryGroups gs).map (fun g => String.mk (natRepr g.id)))
        ∧ (∀ s ∈ up, s.key = "unassigned") ∧ up.length ≤ 1) := by
  obtain ⟨hdom, hkr⟩ := groupMap_final rows (getCategoryGroups gs)
  refine ⟨?_, ?_, ?_, List.sorted_insertionSort groupOrder gs, ?_⟩
  · constructor
    · rintro ⟨s, hs, hkey⟩
      obtain ⟨k, hMk, hne⟩ := buildGroupSections_mem_strong hs
      obtain ⟨hk1, hk2⟩ := hkr k s hMk
      have hki : k = BucketKey.income :=
        bucketKeyString_eq_income (hk1 ▸ hkey)
      rw [hki] at hk2
      rw [hk2] at hne
      obtain ⟨r, hr⟩ := List.exists_mem_of_ne_nil _ hne
      obtain ⟨hrr, hrk⟩ := List.mem_filter.mp hr
      refine ⟨r, hrr, ?_⟩
      rw [← resolvedKey_eq_income_iff (getCategoryGroups gs) r]
      simpa using hrk
    · rintro ⟨r, hr, hrule⟩
      have hsome : ((rows.foldl groupStep
          (initGroupMap (getCategoryGroups gs))) BucketKey.income).isSome
          = true :=
        (hdom BucketKey.income).mpr (Or.inl rfl)
      obtain ⟨s, hMs⟩ := Option.isSome_iff_exists.mp hsome
      obtain ⟨hk1, hk2⟩ := hkr BucketKey.income s hMs
      have hne : s.rows ≠ [] := by
        rw [hk2]
        apply List.ne_nil_of_mem
        apply List.mem_filter.mpr
        refine ⟨hr, ?_⟩
        simp [resolvedKey_eq_income_iff, hrule]
      exact ⟨s, (income_section_mem hMs hne).1, hk1⟩
  · rintro ⟨r, hr, hrule⟩
    have hsome : ((rows.foldl groupStep
        (initGroupMap (getCategoryGroups gs))) BucketKey.income).isSome
        = true :=
      (hdom BucketKey.income).mpr (Or.inl rfl)
    obtain ⟨s, hMs⟩ := Option.isSome_iff_exists.mp hsome
    obtain ⟨hk1, hk2⟩ := hkr BucketKey.income s hMs
    have hne : s.rows ≠ [] := by
      rw [hk2]
      apply List.ne_nil_of_mem
      apply List.mem_filter.mpr
      refine ⟨hr, ?_⟩
      simp [resolvedKey_eq_income_iff, hrule]
    exact ⟨s, (income_section_mem hMs hne).2, hk1⟩
  · intro g hg
    constructor
    · rintro ⟨s, hs, hkey⟩
      obtain ⟨k, hMk, hne⟩ := buildGroupSections_mem_strong hs
      obtain ⟨hk1, hk2⟩ := hkr k s hMk
      have hki : k = BucketKey.group g.id :=
        bucketKeyString_eq_group (hk1 ▸ hkey)
      rw [hki] at hk2
      rw [hk2] at hne
      obtain ⟨r, hr⟩ := List.exists_mem_of_ne_nil _ hne
      obtain ⟨hrr, hrk⟩ := List.mem_filter.mp hr
      refine ⟨r, hrr, ?_⟩
      simpa using hrk
    · rintro ⟨r, hr, hrk⟩
      have hsome : ((rows.foldl groupStep
          (initGroupMap (getCategoryGroups gs)))
            (BucketKey.group g.id)).isSome = true :=
        (hdom (BucketKey.group g.id)).mpr
          (Or.inr (Or.inr ⟨g, hg, rfl⟩))
      obtain ⟨s, hMs⟩ := Option.isSome_iff_exists.mp hsome
      obtain ⟨hk1, hk2⟩ := hkr (BucketKey.group g.id) s hMs
      have hne : s.rows ≠ [] := by
        rw [hk2]
        apply List.ne_nil_of_mem
        apply List.mem_filter.mpr
        exact ⟨hr, by simp [hrk]⟩
      exact ⟨s, group_section_mem hg hMs hne, hk1⟩
  · refine ⟨_, _, _, rfl, ?_, ?_, ?_, ?_, ?_⟩
    · -- every section of the income part carries the "income" key
      intro s hs
      cases hmk : (rows.foldl groupStep
          (initGroupMap (getCategoryGroups gs))) BucketKey.income with
      | none =>
        rw [hmk] at hs
        exact absurd hs (List.not_mem_nil s)
      | some s0 =>
        rw [hmk] at hs
        have h' : s ∈ (if s0.rows ≠ [] then [s0] else []) := hs
        by_cases hne : s0.rows = []
        · simp [hne] at h'
        · rw [if_pos hne] at h'
          rw [List.mem_singleton.mp h']
          exact (hkr BucketKey.income s0 hmk).1
    · -- the income part has at most one section
      cases hmk : (rows.foldl groupStep
          (initGroupMap (getCategoryGroups gs))) BucketKey.income with
      | none => simp
      | some s0 =>
        by_cases hne : s0.rows = []
        · simp [hne]
        · show (if s0.rows ≠ [] then [s0] else []).length ≤ 1
          rw [if_pos hne]
          simp
    · -- the named sections' keys follow the sorted group list
      have h1 : (((getCategoryGroups gs).filterMap
            (fun g => (rows.foldl groupStep
              (initGroupMap (getCategoryGroups gs)))
                (BucketKey.group g.id))).filter
            (fun s => decide (s.rows ≠ []))).map (fun s => s.key)
          |>.Sublist (((getCategoryGroups gs).filterMap
            (fun g => (rows.foldl groupStep
              (initGroupMap (getCategoryGroups gs)))
                (BucketKey.group g.id))).map (fun s => s.key)) :=
        (List.filter_sublist _).map _
      exact h1.trans (filterMap_key_sublist _ _
        (fun g s h => (hkr (BucketKey.group g.id) s h).1))
    · -- every section of the unassigned part carries "unassigned"
      intro s hs
      cases hmk : (rows.foldl groupStep
          (initGroupMap (getCategoryGroups gs))) BucketKey.unassigned with
      | none =>
        rw [hmk] at hs
        exact absurd hs (List.not_mem_nil s)
      | some s0 =>
        rw [hmk] at hs
        have h' : s ∈ (if s0.rows ≠ [] then [s0] else []) := hs
        by_cases hne : s0.rows = []
        · simp [hne] at h'
        · rw [if_pos hne] at h'
          rw [List.mem_singleton.mp h']
          exact (hkr BucketKey.unassigned s0 hmk).1
    · -- the unassigned part has at most one section
      cases hmk : (rows.foldl groupStep
          (initGroupMap (getCategoryGroups gs))) BucketKey.unassigned with
      | none => simp
      | some s0 =>
        by_cases hne : s0.rows = []
        · simp [hne]
        · show (if s0.rows ≠ [] then [s0] else []).length ≤ 1
          rw [if_pos hne]
          simp

/-! ## Export/import round trip -/

theorem mem_importTransactionsGo :
    ∀ (data : List TransactionInput) (n : Nat) (t : Transaction),
      t ∈ importTransactionsGo n data → ∃ tx ∈ data, t.date = tx.date := by
  intro data
  induction data with
  | nil =>
    intro n t h
    cases h
  | cons tx rest ih =>
    intro n t h
    rcases List.mem_cons.mp h with h | h
    · exact ⟨tx, List.mem_cons_self _ _, by rw [h]⟩
    · obtain ⟨tx', htx', hd⟩ := ih (n + 1) t h
      exact ⟨tx', List.mem_cons_of_mem _ htx', hd⟩

theorem txsByMonth_import (txs : List Transaction) (month : String) :
    txsByMonth (importTransactions (exportTransactions txs month)) month
      = importTransactions (exportTransactions txs month) := by
  apply List.filter_eq_self.mpr
  intro t ht
  obtain ⟨tx, htx, hd⟩ :=
    mem_importTransactionsGo (exportTransactions txs month) 1 t ht
  obtain ⟨t0, ht0, he⟩ := List.mem_map.mp htx
  obtain ⟨-, hp⟩ := List.mem_filter.mp ht0
  rw [hd, ← he]
  show leadsWith month.data t0.date.data = true
  exact hp

theorem spentFold_import {srcCats tgtCats : List Category}
    (hsome : ∀ k, (catMapOf tgtCats k).isSome = (catMapOf srcCats k).isSome) :
    ∀ (l : List Transaction) (n : Nat) (m : List (Nat × Rat)),
      (importTransactionsGo n (l.map stripTransaction)).foldl
        (fun m tx =>
          match catMapOf tgtCats tx.categoryId with
          | none => m
          | some _ =>
            upsertEntry m tx.categoryId
              (getSignedAmount tx.amount (tx.isIncome == 1)))
        m
      = l.foldl
        (fun m tx =>
          match catMapOf srcCats tx.categoryId with
          | none => m
          | some _ =>
            upsertEntry m tx.categoryId
              (getSignedAmount tx.amount (tx.isIncome == 1)))
        m := by
  intro l
  induction l with
  | nil =>
    intro n m
    rfl
  | cons t rest ih =>
    intro n m
    rw [List.map_cons]
    show (importTransactionsGo (n + 1) (rest.map stripTransaction)).foldl _
        (match catMapOf tgtCats t.categoryId with
          | none => m
          | some _ =>
            upsertEntry m t.categoryId
              (getSignedAmount t.amount (t.isIncome == 1)))
      = _
    rw [List.foldl_cons]
    cases hc : catMapOf srcCats t.categoryId with
    | none =>
      have h1 : catMapOf tgtCats t.categoryId = none := by
        apply Option.not_isSome_iff_eq_none.mp
        rw [hsome, hc]
        simp
      simp only [h1, hc]
      exact ih (n + 1) m
    | some c =>
      have h1 : (catMapOf tgtCats t.categoryId).isSome = true := by
        rw [hsome, hc]
        rfl
      obtain ⟨c', hc'⟩ := Option.isSome_iff_exists.mp h1
      simp only [h1, hc, hc']
      exact ih (n + 1) _

theorem buildSpentMap_import {srcCats tgtCats : List Category}
    (hsome : ∀ k, (catMapOf tgtCats k).isSome = (catMapOf srcCats k).isSome)
    (txs : List Transaction) (month : String) :
    buildSpentMap tgtCats (importTransactions (exportTransactions txs month))
      = buildSpentMap srcCats (txsByMonth txs month) := by
  unfold buildSpentMap importTransactions exportTransactions
  exact spentFold_import hsome (txsByMonth txs month) 1 []

theorem totalsFold_ruleEq {srcCats tgtCats : List Category}
    (hrule : ∀ k, (catMapOf tgtCats k).map Category.rule
      = (catMapOf srcCats k).map Category.rule) :
    ∀ (entries : List (Nat × Rat)) (acc : Rat × Rat),
      entries.foldl
        (fun acc e =>
          match catMapOf tgtCats e.1 with
          | none => acc
          | some c =>
            match c.rule with
            | Rule.income => (acc.1 + e.2, acc.2)
            | Rule.spending => (acc.1, acc.2 + -e.2))
        acc
      = entries.foldl
        (fun acc e =>
          match catMapOf srcCats e.1 with
          | none => acc
          | some c =>
            match c.rule with
            | Rule.income => (acc.1 + e.2, acc.2)
            | Rule.spending => (acc.1, acc.2 + -e.2))
        acc := by
  intro entries
  induction entries with
  | nil =>
    intro acc
    rfl
  | cons e rest ih =>
    intro acc
    rw [List.foldl_cons, List.foldl_cons]
    cases hc : catMapOf srcCats e.1 with
    | none =>
      have h1 : catMapOf tgtCats e.1 = none := by
        apply Option.not_isSome_iff_eq_none.mp
        have := congrArg Option.isSome (hrule e.1)
        rw [Option.isSome_map', Option.isSome_map'] at this
        rw [this, hc]
        simp
      simp only [h1, hc]
      exact ih acc
    | some c =>
      have h1 : (catMapOf tgtCats e.1).map Category.rule = some c.rule := by
        rw [hrule e.1, hc]
        rfl
      cases hc' : catMapOf tgtCats e.1 with
      | none =>
        rw [hc'] at h1
        cases h1
      | some c' =>
        rw [hc'] at h1
        rw [Option.map_some'] at h1
        injection h1 with h1
        simp only [hc, hc', h1]
        exact ih _

/-- C7: exporting a month's transactions and re-importing them into an
empty transactions table, against a category table whose per-id rules
match the source's, reproduces the source's per-category aggregation for
that month — the `spentByCategory` map, every category's `rawNet` and
displayed spent value, and the income and spending totals. -/
theorem claim_C7 (txs : List Transaction) (month : String)
    (srcCats tgtCats : List Category)
    (hrule : ∀ k, (catMapOf tgtCats k).map Category.rule
      = (catMapOf srcCats k).map Category.rule) :
    buildSpentMap tgtCats
        (txsByMonth (importTransactions (exportTransactions txs month)) month)
      = buildSpentMap srcCats (txsByMonth txs month)
    ∧ (∀ k, rawNetOf tgtCats
        (txsByMonth (importTransactions (exportTransactions txs month)) month)
          k
      = rawNetOf srcCats (txsByMonth txs month) k)
    ∧ (∀ c, spentFor tgtCats
        (txsByMonth (importTransactions (exportTransactions txs month)) month)
          c
      = spentFor srcCats (txsByMonth txs month) c)
    ∧ totalIncomeOf tgtCats
        (txsByMonth (importTransactions (exportTransactions txs month)) month)
      = totalIncomeOf srcCats (txsByMonth txs month)
    ∧ totalSpendingOf tgtCats
        (txsByMonth (importTransactions (exportTransactions txs month)) month)
      = totalSpendingOf srcCats (txsByMonth txs month) := by
  have hsome : ∀ k,
      (catMapOf tgtCats k).isSome = (catMapOf srcCats k).isSome := by
    intro k
    have := congrArg Option.isSome (hrule k)
    rwa [Option.isSome_map', Option.isSome_map'] at this
  have hmap : buildSpentMap tgtCats
      (txsByMonth (importTransactions (exportTransactions txs month)) month)
      = buildSpentMap srcCats (txsByMonth txs month) := by
    rw [txsByMonth_import]
    exact buildSpentMap_import hsome txs month
  have hraw : ∀ k, rawNetOf tgtCats
      (txsByMonth (importTransactions (exportTransactions txs month)) month) k
      = rawNetOf srcCats (txsByMonth txs month) k := by
    intro k
    unfold rawNetOf
    rw [hmap]
  have htot : flatTotals tgtCats
      (txsByMonth (importTransactions (exportTransactions txs month)) month)
      = flatTotals srcCats (txsByMonth txs month) := by
    unfold flatTotals
    rw [hmap]
    exact totalsFold_ruleEq hrule
      (buildSpentMap srcCats (txsByMonth txs month)) (0, 0)
  refine ⟨hmap, hraw, ?_, ?_, ?_⟩
  · intro c
    unfold spentFor
    rw [hraw c.id]
  · unfold totalIncomeOf
    rw [htot]
  · unfold totalSpendingOf
    rw [htot]

theorem claim_C7_witness :
    (∀ k, (catMapOf exampleProfitCats k).map Category.rule
      = (catMapOf exampleProfitCats k).map Category.rule)
    ∧ totalSpendingOf exampleProfitCats
        (txsByMonth
          (importTransactions (exportTransactions exampleProfitTxs "2024-05"))
          "2024-05")
      = totalSpendingOf exampleProfitCats
          (txsByMonth exampleProfitTxs "2024-05") :=
  ⟨fun _ => rfl,
    (claim_C7 exampleProfitTxs "2024-05" exampleProfitCats exampleProfitCats
      (fun _ => rfl)).2.2.2.2⟩

/-! ## Category deletion -/

/-- C8: category deletion is guarded by the caller-checked precondition
that the category has zero referencing transactions; under it the guard
passes, `deleteCategory` removes the category row and every
`monthly_budgets` row of that category in any month, keeps every other
category and budget row, and leaves the transactions table untouched; when
the count is positive the guarded path refuses and changes nothing. -/
theorem claim_C8 (db : AppDb) (id : Nat)
    (hpre : (categoryHasTransactions db id).2 = 0) :
    (categoryHasTransactions db id).1 = false
    ∧ guardedDeleteCategory db id = deleteCategory db id
    ∧ (deleteCategory db id).categories
        = db.categories.filter (fun c => !(c.id == id))
    ∧ (∀ c ∈ (deleteCategory db id).categories, c.id ≠ id)
    ∧ (∀ c ∈ db.categories, c.id ≠ id →
        c ∈ (deleteCategory db id).categories)
    ∧ (deleteCategory db id).monthly_budgets
        = db.monthly_budgets.filter (fun r => !(r.categoryId == id))
    ∧ (∀ r ∈ (deleteCategory db id).monthly_budgets, r.categoryId ≠ id)
    ∧ (∀ r ∈ db.monthly_budgets, r.categoryId ≠ id →
        r ∈ (deleteCategory db id).monthly_budgets)
    ∧ (deleteCategory db id).transactions = db.transactions
    ∧ (∀ (db' : AppDb) (id' : Nat),
        0 < (categoryHasTransactions db' id').2 →
          guardedDeleteCategory db' id' = db') := by
  have hcount : transactionCountForCategory db id = 0 := hpre
  refine ⟨?_, ?_, rfl, ?_, ?_, rfl, ?_, ?_, rfl, ?_⟩
  · unfold categoryHasTransactions
    rw [hcount]
    rfl
  · unfold guardedDeleteCategory
    rw [if_neg (by omega)]
  · intro c hc
    obtain ⟨-, hp⟩ := List.mem_filter.mp hc
    simpa using hp
  · intro c hc hne
    exact List.mem_filter.mpr ⟨hc, by simpa using hne⟩
  · intro r hr
    obtain ⟨-, hp⟩ := List.mem_filter.mp hr
    simpa using hp
  · intro r hr hne
    exact List.mem_filter.mpr ⟨hr, by simpa using hne⟩
  · intro db' id' hpos
    have hpos' : 0 < transactionCountForCategory db' id' := hpos
    unfold guardedDeleteCategory
    rw [if_pos hpos']

theorem claim_C8_witness :
    ((categoryHasTransactions
        { categories := exampleIdleCats, transactions := []
          monthly_budgets := [{ categoryId := 1, month := "2024-01"
                                budgetAmount := 25 }] } 1).2 = 0)
    ∧ (deleteCategory
        { categories := exampleIdleCats, transactions := []
          monthly_budgets := [{ categoryId := 1, month := "2024-01"
                                budgetAmount := 25 }] } 1).monthly_budgets
      = ([{ categoryId := 1, month := "2024-01",
            budgetAmount := 25 }] : BudgetTable).filter
          (fun r => !(r.categoryId == 1)) :=
  ⟨by decide,
    (claim_C8
      { categories := exampleIdleCats, transactions := []
        monthly_budgets := [{ categoryId := 1, month := "2024-01"
                              budgetAmount := 25 }] } 1
      (by decide)).2.2.2.2.2.1⟩

/-! ## Category-group insertion -/

theorem le_foldl_max : ∀ (xs : List Int) (x : Int), x ≤ xs.foldl max x := by
  intro xs
  induction xs with
  | nil =>
    intro x
    exact le_refl x
  | cons a xs ih =>
    intro x
    rw [List.foldl_cons]
    exact le_trans (le_max_left x a) (ih (max x a))

theorem mem_le_foldl_max :
    ∀ (xs : List Int) (x y : Int), y ∈ xs → y ≤ xs.foldl max x := by
  intro xs
  induction xs with
  | nil =>
    intro x y h
    cases h
  | cons a xs ih =>
    intro x y h
    rw [List.foldl_cons]
    rcases List.mem_cons.mp h with h | h
    · rw [h]
      exact le_trans (le_max_right x a) (le_foldl_max xs (max x a))
    · exact ih (max x a) y h

theorem sortOrder_le_max {gs : List CategoryGroup} {g : CategoryGroup}
    (hg : g ∈ gs) : g.sortOrder ≤ (maxSortOrderOpt gs).getD 0 := by
  cases gs with
  | nil => cases hg
  | cons g0 rest =>
    show g.sortOrder ≤ (rest.map (fun g => g.sortOrder)).foldl max g0.sortOrder
    rcases List.mem_cons.mp hg with h | h
    · rw [h]
      exact le_foldl_max _ _
    · exact mem_le_foldl_max _ _ _ (List.mem_map_of_mem _ h)

theorem getLast?_some_mem {α : Type} :
    ∀ {l : List α} {y : α}, l.getLast? = some y → y ∈ l := by
  intro l
  induction l with
  | nil =>
    intro y h
    cases h
  | cons a t ih =>
    intro y h
    cases t with
    | nil =>
      rw [List.getLast?_singleton] at h
      injection h with h
      rw [← h]
      exact List.mem_singleton.mpr rfl
    | cons b t' =>
      rw [List.getLast?_cons_cons] at h
      exact List.mem_cons_of_mem _ (ih h)

theorem pairwise_getLast {α : Type} {r : α → α → Prop} :
    ∀ {l : List α} {x y : α}, l.Pairwise r → x ∈ l →
      l.getLast? = some y → x = y ∨ r x y := by
  intro l
  induction l with
  | nil =>
    intro x y _ hx _
    cases hx
  | cons a t ih =>
    intro x y hp hx hl
    cases t with
    | nil =>
      rw [List.getLast?_singleton] at hl
      injection hl with hl
      rcases List.mem_singleton.mp hx with h
      exact Or.inl (h.trans hl)
    | cons b t' =>
      rw [List.getLast?_cons_cons] at hl
      rcases List.mem_cons.mp hx with h | h
      · have hy : y ∈ b :: t' := getLast?_some_mem hl
        exact Or.inr (h ▸ (List.pairwise_cons.mp hp).1 y hy)
      · exact ih (List.pairwise_cons.mp hp).2 h hl

/-- C10: `insertCategoryGroup` appends a group whose `sortOrder` is one
plus the maximum existing `sortOrder` (1 when no groups exist); the new
value is strictly greater than every existing one, pairwise-distinct
`sortOrder` values stay distinct, and `getCategoryGroups` lists the new
group last. -/
theorem claim_C10 (gs : List CategoryGroup) (name : String) (newId : Nat)
    (hdist : (gs.map (fun g => g.sortOrder)).Nodup) :
    insertCategoryGroup gs name newId
      = gs ++ [{ id := newId, name := name
                 sortOrder := (maxSortOrderOpt gs).getD 0 + 1, color := none }]
    ∧ (gs = [] →
        insertCategoryGroup gs name newId
          = [{ id := newId, name := name, sortOrder := 1, color := none }])
    ∧ (∀ g ∈ gs, g.sortOrder < (maxSortOrderOpt gs).getD 0 + 1)
    ∧ ((insertCategoryGroup gs name newId).map
        (fun g => g.sortOrder)).Nodup
    ∧ (getCategoryGroups (insertCategoryGroup gs name newId)).getLast?
        = some { id := newId, name := name
                 sortOrder := (maxSortOrderOpt gs).getD 0 + 1
                 color := none } := by
  have hlt : ∀ g ∈ gs, g.sortOrder < (maxSortOrderOpt gs).getD 0 + 1 := by
    intro g hg
    have := sortOrder_le_max hg
    omega
  refine ⟨rfl, ?_, hlt, ?_, ?_⟩
  · intro h
    rw [h]
    rfl
  · unfold insertCategoryGroup
    rw [List.map_append]
    rw [List.nodup_append]
    refine ⟨hdist, List.nodup_singleton _, ?_⟩
    intro x hx hx'
    rcases List.mem_singleton.mp (by simpa using hx') with h
    obtain ⟨g, hg, hgx⟩ := List.mem_map.mp hx
    have := hlt g hg
    rw [hgx] at this
    rw [h] at this
    simp at this
  · have hperm := List.perm_insertionSort groupOrder
      (insertCategoryGroup gs name newId)
    have hsorted := List.sorted_insertionSort groupOrder
      (insertCategoryGroup gs name newId)
    have hmemnew : ({ id := newId, name := name, sortOrder := (maxSortOrderOpt gs).getD 0 + 1, color := none } : CategoryGroup) ∈ getCategoryGroups (insertCategoryGroup gs name newId) := by
      apply hperm.mem_iff.mpr
      unfold insertCategoryGroup
      exact List.mem_append.mpr (Or.inr (List.mem_singleton.mpr rfl))
    have hne : getCategoryGroups (insertCategoryGroup gs name newId) ≠ [] :=
      List.ne_nil_of_mem hmemnew
    cases hl : (getCategoryGroups (insertCategoryGroup gs name newId)).getLast?
      with
    | none =>
      rw [List.getLast?_eq_none_iff] at hl
      exact absurd hl hne
    | some y =>
      rcases pairwise_getLast hsorted hmemnew hl with h | h
      · rw [← h]
      · -- the last element is ≥ the new group; show it must be the new group
        have hy : y ∈ getCategoryGroups (insertCategoryGroup gs name newId) :=
          getLast?_some_mem hl
        have hy' : y ∈ insertCategoryGroup gs name newId :=
          hperm.mem_iff.mp hy
        unfold insertCategoryGroup at hy'
        rcases List.mem_append.mp hy' with hyg | hyn
        · -- impossible: an old group cannot follow the strictly-greater new one
          exfalso
          have hlt' := hlt y hyg
          unfold groupOrder at h
          simp at h
          omega
        · rcases List.mem_singleton.mp hyn with h'
          rw [h']

theorem claim_C10_witness :
    (exampleIdleGroups.map (fun g => g.sortOrder)).Nodup
    ∧ (getCategoryGroups (insertCategoryGroup exampleIdleGroups "New" 2)).getLast?
        = some { id := 2, name := "New"
                 sortOrder := (maxSortOrderOpt exampleIdleGroups).getD 0 + 1
                 color := none } :=
  ⟨by decide, (claim_C10 exampleIdleGroups "New" 2 (by decide)).2.2.2.2⟩

/-! ## Month-key parsing and `shiftMonth` -/

theorem splitOnCharAux_no_sep (sep : Char) :
    ∀ (xs acc : List Char), (∀ c ∈ xs, (c == sep) = false) →
      splitOnCharAux sep xs acc = [acc.reverse ++ xs] := by
  intro xs
  induction xs with
  | nil =>
    intro acc _
    simp [splitOnCharAux]
  | cons c cs ih =>
    intro acc h
    rw [splitOnCharAux]
    rw [if_neg (by
      rw [h c (List.mem_cons_self _ _)]
      simp)]
    rw [ih (c :: acc) (fun c' hc' => h c' (List.mem_cons_of_mem _ hc'))]
    simp

theorem splitOnCharAux_sep (sep : Char) :
    ∀ (xs ys acc : List Char), (∀ c ∈ xs, (c == sep) = false) →
      splitOnCharAux sep (xs ++ sep :: ys) acc
        = (acc.reverse ++ xs) :: splitOnChar sep ys := by
  intro xs
  induction xs with
  | nil =>
    intro ys acc _
    rw [List.nil_append, splitOnCharAux]
    rw [if_pos (by simp)]
    simp [splitOnChar]
  | cons c cs ih =>
    intro ys acc h
    rw [List.cons_append, splitOnCharAux]
    rw [if_neg (by
      rw [h c (List.mem_cons_self _ _)]
      simp)]
    rw [ih ys (c :: acc) (fun c' hc' => h c' (List.mem_cons_of_mem _ hc'))]
    simp

theorem pad2_digits (m : Nat) :
    ∀ c ∈ pad2 m, 48 ≤ c.toNat ∧ c.toNat ≤ 57 := by
  intro c hc
  unfold pad2 at hc
  by_cases hl : (natRepr m).length < 2
  · rw [if_pos hl] at hc
    rcases List.mem_cons.mp hc with h | h
    · rw [h]
      decide
    · exact natRepr_digits m c h
  · rw [if_neg hl] at hc
    exact natRepr_digits m c hc

theorem no_dash_of_digits {cs : List Char}
    (h : ∀ c ∈ cs, 48 ≤ c.toNat ∧ c.toNat ≤ 57) :
    ∀ c ∈ cs, (c == '-') = false := by
  intro c hc
  have hd := h c hc
  have : c ≠ '-' := by
    intro he
    rw [he] at hd
    have : ('-').toNat = 45 := by decide
    omega
  simpa using this

theorem parseDigits_pad2 (m : Nat) : parseDigits (pad2 m) = some m := by
  unfold pad2
  by_cases hl : (natRepr m).length < 2
  · rw [if_pos hl]
    show parseDigits (natRepr m) = some m
    exact parseDigits_natRepr m
  · rw [if_neg hl]
    exact parseDigits_natRepr m

theorem splitOnChar_monthKey {y : Int} (m : Nat) (hy : 0 ≤ y) :
    splitOnChar '-' (monthKey y m).data = [natRepr y.toNat, pad2 m] := by
  have hdata : (monthKey y m).data = natRepr y.toNat ++ '-' :: pad2 m := by
    show (intRepr y ++ '-' :: pad2 m) = _
    unfold intRepr
    rw [if_neg (by omega)]
  rw [hdata]
  unfold splitOnChar
  rw [splitOnCharAux_sep '-' _ _ []
    (no_dash_of_digits (natRepr_digits y.toNat))]
  unfold splitOnChar
  rw [splitOnCharAux_no_sep '-' _ []
    (no_dash_of_digits (pad2_digits m))]
  simp

theorem shiftMonth_compute (y : Int) (m : Nat) (delta : Int)
    (hy1 : 100 ≤ y) :
    shiftMonth (monthKey y m) delta
      = String.mk (intRepr (y + ((m : Int) - 1 + delta).fdiv 12)
          ++ '-' :: pad2 (((m : Int) - 1 + delta).fmod 12 + 1).toNat) := by
  unfold shiftMonth
  rw [splitOnChar_monthKey m (by omega)]
  simp only [parseDigits_natRepr, parseDigits_pad2]
  have hyn : ((y.toNat : Int)) = y := Int.toNat_of_nonneg (by omega)
  rw [hyn]
  rw [if_neg (by omega)]

/-- The claim fails on the code in two ways: the JS `Date` constructor
remaps year arguments 0–99 to 1900–1999, so `shiftMonth "0099-01" 0`
returns "1999-01" instead of the same calendar month; and a delta that
lands in that year band breaks the round trip —
`shiftMonth (shiftMonth "2024-01" (-23400)) 23400` is "3924-01", not
"2024-01". -/
theorem claim_C9_counterexample :
    shiftMonth "0099-01" 0 = "1999-01"
    ∧ ("1999-01" : String) ≠ "0099-01"
    ∧ shiftMonth (shiftMonth "2024-01" (-23400)) 23400 = "3924-01"
    ∧ ("3924-01" : String) ≠ "2024-01" :=
  ⟨by decide, by decide, by decide, by decide⟩

/-- C9, amended: for a month key whose year is between 1000 and 9999 and a
delta whose target calendar year also stays between 1000 and 9999 (so the
JS small-year remapping and the unpadded-year formatting never trigger),
`shiftMonth` yields the key of the calendar month exactly `delta` months
after the input, and shifting forward then back round-trips to the
original key. -/
theorem claim_C9 (y : Int) (m : Nat) (delta : Int)
    (hy1 : 1000 ≤ y) (hy2 : y ≤ 9999)
    (hm1 : 1 ≤ m) (hm2 : m ≤ 12)
    (hy1' : 1000 ≤ (calendarMonthAfter y m delta).1)
    (hy2' : (calendarMonthAfter y m delta).1 ≤ 9999) :
    shiftMonth (monthKey y m) delta
      = monthKey (calendarMonthAfter y m delta).1
          (calendarMonthAfter y m delta).2.toNat
    ∧ shiftMonth (shiftMonth (monthKey y m) delta) (-delta)
      = monthKey y m := by
  have hfd : ∀ a : Int, a.fdiv 12 = a / 12 :=
    fun a => Int.fdiv_eq_ediv a (by norm_num)
  have hfm : ∀ a : Int, a.fmod 12 = a % 12 :=
    fun a => Int.fmod_eq_emod a (by norm_num)
  have hcy : (calendarMonthAfter y m delta).1
      = (y * 12 + ((m : Int) - 1) + delta).fdiv 12 := rfl
  have hcm : (calendarMonthAfter y m delta).2
      = (y * 12 + ((m : Int) - 1) + delta).fmod 12 + 1 := rfl
  have e1 : y + ((m : Int) - 1 + delta).fdiv 12
      = (calendarMonthAfter y m delta).1 := by
    rw [hcy, hfd, hfd]
    omega
  have e2 : ((m : Int) - 1 + delta).fmod 12 + 1
      = (calendarMonthAfter y m delta).2 := by
    rw [hcm, hfm, hfm]
    omega
  have h1 : shiftMonth (monthKey y m) delta
      = monthKey (calendarMonthAfter y m delta).1
          (calendarMonthAfter y m delta).2.toNat := by
    rw [shiftMonth_compute y m delta (by omega)]
    unfold monthKey
    rw [e1, e2]
  refine ⟨h1, ?_⟩
  rw [h1]
  -- bounds on the intermediate month
  have hm'1 : 1 ≤ (calendarMonthAfter y m delta).2 := by
    rw [hcm, hfm]
    omega
  have hm'2 : (calendarMonthAfter y m delta).2 ≤ 12 := by
    rw [hcm, hfm]
    omega
  have hm'cast : (((calendarMonthAfter y m delta).2.toNat : Nat) : Int)
      = (calendarMonthAfter y m delta).2 :=
    Int.toNat_of_nonneg (by omega)
  rw [shiftMonth_compute (calendarMonthAfter y m delta).1
    (calendarMonthAfter y m delta).2.toNat (-delta) (by omega)]
  have ey : (calendarMonthAfter y m delta).1
      + (((calendarMonthAfter y m delta).2.toNat : Int) - 1 + -delta).fdiv 12
      = y := by
    rw [hm'cast, hcy, hcm, hfd, hfd, hfm]
    omega
  have em : ((((calendarMonthAfter y m delta).2.toNat : Int) - 1
        + -delta).fmod 12 + 1).toNat = m := by
    have hval : (((calendarMonthAfter y m delta).2.toNat : Int) - 1
        + -delta).fmod 12 + 1 = (m : Int) := by
      rw [hm'cast, hcm, hfm, hfm]
      omega
    rw [hval]
    exact Int.toNat_natCast m
  rw [ey, em]
  rfl

theorem claim_C9_witness :
    ((1000 : Int) ≤ 2024 ∧ (2024 : Int) ≤ 9999
      ∧ (1 : Nat) ≤ 1 ∧ (1 : Nat) ≤ 12
      ∧ 1000 ≤ (calendarMonthAfter 2024 1 13).1
      ∧ (calendarMonthAfter 2024 1 13).1 ≤ 9999)
    ∧ shiftMonth (shiftMonth (monthKey 2024 1) 13) (-13) = monthKey 2024 1 :=
  ⟨⟨by decide, by decide, by decide, by decide, by decide, by decide⟩,
    (claim_C9 2024 1 13 (by decide) (by decide) (by decide) (by decide)
      (by decide) (by decide)).2⟩
